import Mathlib

/-!
Verification development for the WEKO storage-gateway provider
(waterbutler/providers/weko: client.py, metadata.py, provider.py).

The Python source is shallowly embedded: JSON-ish payloads become inductive
data, remote HTTP lookups become pure lookups in a `Repo` value together with
an explicit call log, exceptions become `Except Err`, and the provider's
delegate storage backend (whose implementation is outside this repository's
sources) is modelled from the specification of its contract.
-/

set_option maxHeartbeats 1000000

namespace WEKO

/-! ## String utilities modelling Python string operations

Python string primitives used by the source (`str.split('/')`,
`'/'.join(...)`, `str.rstrip('/')`, `str.startswith`, slicing) are modelled
on the character list underlying a `String`. -/

/-- Models Python `s.split('/')`: `"".split` gives `[""]`, separators at the
ends give empty chunks. -/
def splitChars : List Char → List (List Char)
  | [] => [[]]
  | c :: rest =>
    if c = '/' then [] :: splitChars rest
    else
      match splitChars rest with
      | [] => [[c]]
      | h :: t => (c :: h) :: t

/-- Models Python `'/'.join(parts)` on character lists. -/
def joinSlashCs : List (List Char) → List Char
  | [] => []
  | [s] => s
  | s :: rest => s ++ '/' :: joinSlashCs rest

/-- Models Python `s.rstrip('/')` on character lists. -/
def rstripSlashCs (cs : List Char) : List Char :=
  (cs.reverse.dropWhile (fun c => c = '/')).reverse

/-- Models Python `s.split('/')` for strings. -/
def splitStr (s : String) : List String :=
  (splitChars s.data).map (fun cs => String.mk cs)

/-- Models Python `'/'.join(parts)` for strings. -/
def joinSlash (l : List String) : String :=
  String.mk (joinSlashCs (l.map String.data))

/-- Models Python `pre in s` at position 0, i.e. `s.startswith(pre)`. -/
def pyStartsWith (s pre : String) : Bool :=
  pre.data.isPrefixOf s.data

/-- Models Python slicing `s[n:]` (character count). -/
def pyDropChars (s : String) (n : Nat) : String :=
  String.mk (s.data.drop n)

/-- Models Python `s.endswith('/')`. -/
def pyEndsWithSlash (s : String) : Bool :=
  s.data.getLast? = some '/'

/-- Path splitting done by `validate_path`: `path.rstrip('/').split('/')`. -/
def splitParts (path : String) : List String :=
  (splitChars (rstripSlashCs path.data)).map (fun cs => String.mk cs)

/-! ## Errors

Models the exception taxonomy raised by the embedded code:
`exceptions.MetadataError(msg, code)`, `ValueError`, a non-success remote
HTTP response surfacing through the client, and uncaught Python runtime
errors (KeyError / IndexError / TypeError / AttributeError). -/

inductive Err where
  | metadataError (msg : String) (code : Nat)
  | valueError (msg : String)
  | remoteAPIError (endpoint : String)
  | pyError (msg : String)
deriving DecidableEq, Repr

/-! ## Remote repository model (client.py)

An `IndexDesc` is one node of the JSON tree returned by `api/tree`;
`ItemJson` is one item record as returned by `api/records/<id>` or the
search endpoint. The value of a metadata key is a string (the title), a
list of strings, or an attribute entry carrying `attribute_type` and
`attribute_value_mlt`. -/

structure FileDesc where
  filename : String
  format : Option String
  version_id : String
  /-- the inner value of `raw.url.url` (the direct download URL) -/
  url : String
deriving DecidableEq, Repr

inductive MetaValue where
  | vstr (s : String)
  | vlist (ss : List String)
  | ventry (attribute_type : Option String) (attribute_value_mlt : List FileDesc)
deriving DecidableEq, Repr

structure ItemJson where
  id : String
  metadata : List (String × MetaValue)
  /-- the `_item_metadata` sub-map when present -/
  item_metadata : Option (List (String × MetaValue))
deriving DecidableEq, Repr

namespace Item

/-- Models `Item._metadata`: `raw.metadata._item_metadata` if present,
otherwise `raw.metadata`. -/
def _metadata (it : ItemJson) : List (String × MetaValue) :=
  match it.item_metadata with
  | some m => m
  | none => it.metadata

/-- Models `Item.identifier`. -/
def identifier (it : ItemJson) : String := it.id

/-- Models `Item.primary_title`: `_metadata['title']`, returned directly if a
string, else its first element; missing key or malformed value raises. -/
def primary_title (it : ItemJson) : Except Err String :=
  match (_metadata it).lookup "title" with
  | none => .error (.pyError "KeyError: title")
  | some (.vstr s) => .ok s
  | some (.vlist []) => .error (.pyError "IndexError: title list empty")
  | some (.vlist (s :: _)) => .ok s
  | some (.ventry _ _) => .error (.pyError "KeyError: 0")

/-- Condition of the scan in `Item.files`: the key starts with `item_` and
the value carries `attribute_type == "file"`. (The title values are plain
strings or lists, for which the membership test is false.) -/
def isFileEntry (kv : String × MetaValue) : Bool :=
  pyStartsWith kv.1 "item_" &&
    (match kv.2 with
     | .ventry (some t) _ => t = "file"
     | _ => false)

/-- Models `Item.files`: the first metadata entry tagged as a file attribute
is parsed into File objects in order; with no such entry, `file_items[0]`
raises IndexError. -/
def files (it : ItemJson) : Except Err (List FileDesc) :=
  match (_metadata it).filter isFileEntry with
  | [] => .error (.pyError "IndexError: no file attribute entry")
  | (_, .ventry _ mlt) :: _ => .ok mlt
  | (_, _) :: _ => .error (.pyError "KeyError: attribute_value_mlt")

/-- Models `File.download_url`. -/
def download_url (f : FileDesc) : String := f.url

end Item

/-- One node of the remote index tree (`api/tree` JSON). -/
inductive IndexDesc where
  | mk (id : String) (name : String) (children : List IndexDesc)

def IndexDesc.id : IndexDesc → String
  | .mk i _ _ => i

def IndexDesc.name : IndexDesc → String
  | .mk _ n _ => n

def IndexDesc.childrenDescs : IndexDesc → List IndexDesc
  | .mk _ _ cs => cs

/-- A resolved `Index` object: the node plus the ancestor chain (tree root
first, parent last), which models the `parent` back-references the client
attaches while walking the tree. -/
structure RIndex where
  node : IndexDesc
  ancestors : List IndexDesc

/-- Models `Index.title`. -/
def RIndex.title (x : RIndex) : String := x.node.name

/-- Models `Index.identifier`. -/
def RIndex.identifier (x : RIndex) : String := x.node.id

/-- Models `Index.parent`: the nearest ancestor, `None` at a tree root. -/
def RIndex.parent (x : RIndex) : Option RIndex :=
  match x.ancestors.getLast? with
  | none => none
  | some p => some ⟨p, x.ancestors.dropLast⟩

/-- Models `Index.children`: children recomputed from the raw snapshot, each
carrying this node as parent. -/
def RIndex.children (x : RIndex) : List RIndex :=
  x.node.childrenDescs.map (fun c => ⟨c, x.ancestors ++ [x.node]⟩)

/-- The bound driving recursive tree traversals; it mirrors Python's
recursion limit (about 1000) and is never exhausted by a repository tree of
realistic size. -/
def RECURSION_BOUND : Nat := 1000

/-- Models `_flatten_indices` (depth-first preorder), keeping ancestor
chains. The recursion over the nested tree is driven by an explicit bound
(kept structural so the definition stays kernel-reducible); the traversal
consumes one unit per node visited. -/
def flattenWithAnc : Nat → List IndexDesc → List IndexDesc → List RIndex
  | 0, _, _ => []
  | _, _, [] => []
  | fuel + 1, anc, .mk i n cs :: rest =>
    ⟨.mk i n cs, anc⟩ ::
      (flattenWithAnc fuel (anc ++ [.mk i n cs]) cs ++ flattenWithAnc fuel anc rest)

/-- The remote repository as data: the index tree, the per-index search
results (page 1), and the record store. -/
structure Repo where
  tree : List IndexDesc
  search : List (String × List ItemJson)
  records : List (String × ItemJson)

/-- Models `Client.get_index_by_id`: flatten the freshly fetched tree and
linear-search by string-equal id; `ValueError` when absent. -/
def getIndexById (repo : Repo) (index_id : String) : Except Err RIndex :=
  match (flattenWithAnc RECURSION_BOUND [] repo.tree).filter
      (fun x => x.identifier = index_id) with
  | [] => .error (.valueError "No index for id")
  | x :: _ => .ok x

/-- Models `Index.get_items` (one page-1 search scoped to this index id); a
non-success response surfaces as a remote API error. -/
def getItems (repo : Repo) (ix : RIndex) : Except Err (List ItemJson) :=
  match repo.search.lookup ix.identifier with
  | some items => .ok items
  | none => .error (.remoteAPIError "api/index")

/-- Models `Index.get_item_by_id` (a direct record fetch, the index itself is
not consulted). -/
def getItemById (repo : Repo) (item_id : String) : Except Err ItemJson :=
  match repo.records.lookup item_id with
  | some it => .ok it
  | none => .error (.remoteAPIError "api/records")

/-! ## Composite segment ids and the path model

`SegId` is the `(kind, backendId, displayName)` triple that `validate_path`
attaches to each path segment. `WEKOPathPart` and `WEKOPath` embed the
classes of provider.py; the behaviour inherited from the WaterButler core
path class, which is not among the sources, is modelled from the spec. -/

inductive SegKind where
  | root
  | index
  | item
  | item_file
  | draft_file
deriving DecidableEq, Repr

structure SegId where
  kind : SegKind
  backendId : String
  displayName : String
deriving DecidableEq, Repr

/-- The reserved marker `ITEM_PREFIX = 'weko:'` of metadata.py (renamed
here). -/
def ITEM_MARKER : String := "weko:"

/-- Models `parse_item_file_id`: matches the anchored pattern
`weko:item([0-9]+)` and returns the digits. -/
def parse_item_file_id (part : String) : Option String :=
  if "weko:item".data.isPrefixOf part.data then
    let ds := part.data.drop 9
    if ds ≠ [] ∧ ds.all Char.isDigit then some (String.mk ds) else none
  else none

/-- Models `WEKOPathPart`: the raw segment value and the optional resolved
triple stored in `_id`. -/
structure WEKOPathPart where
  value : String
  _id : Option SegId
deriving DecidableEq, Repr

namespace WEKOPathPart

/-- Models `WEKOPathPart.is_index`. -/
def is_index (p : WEKOPathPart) : Bool :=
  match p._id with
  | none => false
  | some t => t.kind = .index

/-- Models `WEKOPathPart.is_item`. -/
def is_item (p : WEKOPathPart) : Bool :=
  match p._id with
  | none => false
  | some t => t.kind = .item

/-- Models `WEKOPathPart.is_item_file`. -/
def is_item_file (p : WEKOPathPart) : Bool :=
  match p._id with
  | none => false
  | some t => t.kind = .item_file

/-- Models `WEKOPathPart.is_draft_file`: a part with no resolved id counts as
a draft file. -/
def is_draft_file (p : WEKOPathPart) : Bool :=
  match p._id with
  | none => true
  | some t => t.kind = .draft_file

/-- Models `WEKOPathPart.identifier_value` (`None` when `_id` is absent). -/
def identifier_value (p : WEKOPathPart) : Option String :=
  match p._id with
  | none => none
  | some t => some t.backendId

/-- Models `WEKOPathPart.materialized`. -/
def materialized (p : WEKOPathPart) : String :=
  match p._id with
  | none => p.value
  | some t => t.displayName

end WEKOPathPart

/-- Models Python `str(x)` applied to an `Optional[str]`. -/
def pyStrOpt (o : Option String) : String :=
  match o with
  | some s => s
  | none => "None"

/-- Modelled from the spec: the WaterButler core path class (not among the
sources) holds an ordered list of parts parallel to the path's segments, and
a trailing slash marks a directory. -/
structure WEKOPath where
  parts : List WEKOPathPart
  is_dir : Bool
deriving DecidableEq, Repr

namespace WEKOPath

/-- Models `WEKOPath.is_index` (kind of the last segment). -/
def is_index (p : WEKOPath) : Bool :=
  match p.parts.getLast? with
  | some q => q.is_index
  | none => false

/-- Models `WEKOPath.is_item`. -/
def is_item (p : WEKOPath) : Bool :=
  match p.parts.getLast? with
  | some q => q.is_item
  | none => false

/-- Models `WEKOPath.is_item_file`. -/
def is_item_file (p : WEKOPath) : Bool :=
  match p.parts.getLast? with
  | some q => q.is_item_file
  | none => false

/-- Models `WEKOPath.is_draft_file`. -/
def is_draft_file (p : WEKOPath) : Bool :=
  match p.parts.getLast? with
  | some q => q.is_draft_file
  | none => false

/-- Models `WEKOPath.materialized_path`. -/
def materialized_path (p : WEKOPath) : String :=
  joinSlash (p.parts.map (fun q => q.materialized)) ++ (if p.is_dir then "/" else "")

/-- Models `WEKOPath.as_file`: the same parts re-read without a trailing
slash. -/
def as_file (p : WEKOPath) : WEKOPath :=
  ⟨p.parts, false⟩

/-- Models `WEKOPath.split_draft_file_path`: split at the first
draft-file-kind part after position 0 into (prefix ending at the last remote
node, suffix keeping the leading root part). -/
def split_draft_file_path (p : WEKOPath) : WEKOPath × Option WEKOPath :=
  match (p.parts.enum.filter (fun q => decide (0 < q.1) && q.2.is_draft_file)).map (fun q => q.1) with
  | [] => (p, none)
  | pos :: _ =>
    (⟨p.parts.take pos, true⟩, some ⟨p.parts.take 1 ++ p.parts.drop pos, p.is_dir⟩)

/-- Models `WEKOPath.split_path`: split off the final part. -/
def split_path (p : WEKOPath) : WEKOPath × Option WEKOPathPart :=
  if p.parts.length = 1 then (p, none)
  else (⟨p.parts.dropLast, true⟩, p.parts.getLast?)

end WEKOPath

/-- Modelled from the spec: constructing `WEKOPath(path, _ids=ids)` attaches
the resolved triples positionally to the segments of the path string. -/
def mkWEKOPath (path : String) (ids : List SegId) : WEKOPath :=
  ⟨(splitParts path).zipWith (fun v t => ⟨v, some t⟩) ids, pyEndsWithSlash path⟩

/-! ## The path resolver (`WEKOProvider.validate_path`)

The loop of `validate_path` is embedded as `resolvePart` (one iteration of
the loop body) folded by `validatePathAux`. Remote calls are recorded in the
state's log: `getTree` for each `get_index_by_id` (which refetches the whole
tree), `search` for `Index.get_items`, `record` for
`Index.get_item_by_id`. On an exception, events issued before the raise are
not reported. -/

inductive RemoteCall where
  | getTree
  | search (indexId : String)
  | record (itemId : String)
deriving DecidableEq, Repr

structure ResState where
  ids : List SegId
  index : Option RIndex
  item : Option ItemJson
  file : Option FileDesc
  log : List RemoteCall

/-- The list comprehension filtering items by `primary_title == part`;
evaluating `primary_title` may raise, aborting the comprehension. -/
def filterByTitle (items : List ItemJson) (t : String) : Except Err (List ItemJson) :=
  match items with
  | [] => .ok []
  | it :: rest => do
    let pt ← Item.primary_title it
    let r ← filterByTitle rest t
    pure (if pt = t then it :: r else r)

/-- Resolution of the current-or-default index: reuse `st.index` when set,
else fetch the configured default index (one tree fetch). -/
def effIndex (repo : Repo) (rootId : String) (st : ResState) : Except Err (RIndex × List RemoteCall) :=
  match st.index with
  | some ix => .ok (ix, [])
  | none => (getIndexById repo rootId).map (fun c => (c, [RemoteCall.getTree]))

/-- Models one iteration of the `validate_path` loop over `(i, part)`.
Sequencing of fallible calls is written as explicit matches (the `Except`
bind), propagating the first exception. -/
def resolvePart (repo : Repo) (rootId : String) (i : Nat) (part : String) (st : ResState) :
    Except Err ResState :=
  if pyStartsWith part ITEM_MARKER then
    match parse_item_file_id part with
    | none =>
      if st.item.isSome then .error (.metadataError "Invalid path: No indexes under item" 400)
      else
        match getIndexById repo (pyDropChars part ITEM_MARKER.length) with
        | .error e => .error e
        | .ok ix =>
          .ok { st with
                ids := st.ids ++ [⟨.index, ix.identifier, ix.title⟩],
                index := some ix, log := st.log ++ [.getTree] }
    | some item_id =>
      if st.item.isSome then .error (.metadataError "Invalid path: No item under item" 400)
      else
        match effIndex repo rootId st with
        | .error e => .error e
        | .ok p =>
          match getItemById repo item_id with
          | .error e => .error e
          | .ok it =>
            match Item.primary_title it with
            | .error e => .error e
            | .ok pt =>
              .ok { st with
                    ids := st.ids ++ [⟨.item, Item.identifier it, pt⟩],
                    index := some p.1, item := some it,
                    log := st.log ++ p.2 ++ [.record item_id] }
  else if st.file.isSome then
    .error (.metadataError "Invalid path: No path segment below the item file" 400)
  else if part = "" ∧ i = 0 then
    .ok { st with ids := st.ids ++ [⟨.root, part, part⟩] }
  else
    match st.item with
    | some it =>
      match Item.files it with
      | .error e => .error e
      | .ok fs =>
        match fs.filter (fun f => f.filename = part) with
        | [] => .error (.metadataError "File not found" 404)
        | f :: _ =>
          .ok { st with
                ids := st.ids ++ [⟨.item_file, f.filename, f.filename⟩], file := some f }
    | none =>
      match effIndex repo rootId st with
      | .error e => .error e
      | .ok p =>
        match p.1.children.filter (fun c => c.title = part) with
        | c :: _ =>
          .ok { st with
                ids := st.ids ++ [⟨.index, c.identifier, c.title⟩],
                index := some c, log := st.log ++ p.2 }
        | [] =>
          match getItems repo p.1 with
          | .error e => .error e
          | .ok items =>
            match filterByTitle items part with
            | .error e => .error e
            | .ok (c :: _) =>
              match Item.primary_title c with
              | .error e => .error e
              | .ok pt =>
                .ok { st with
                      ids := st.ids ++ [⟨.item, Item.identifier c, pt⟩],
                      index := some p.1, item := some c,
                      log := st.log ++ p.2 ++ [.search p.1.identifier] }
            | .ok [] =>
              .ok { st with
                    ids := st.ids ++ [⟨.draft_file, part, part⟩],
                    index := some p.1,
                    log := st.log ++ p.2 ++ [.search p.1.identifier] }

/-- Folds `resolvePart` over the enumerated segments. -/
def validatePathAux (repo : Repo) (rootId : String) : Nat → List String → ResState → Except Err ResState
  | _, [], st => .ok st
  | i, part :: rest, st =>
    match resolvePart repo rootId i part st with
    | .error e => .error e
    | .ok st' => validatePathAux repo rootId (i + 1) rest st'

/-- Models `WEKOProvider.validate_path` up to the final `WEKOPath`
construction: the resolved ids and the remote calls issued. -/
def validate_path (repo : Repo) (rootId : String) (path : String) : Except Err ResState :=
  validatePathAux repo rootId 0 (splitParts path) ⟨[], none, none, none, []⟩

/-- Models the full `validate_path` including the `WEKOPath` construction. -/
def weko_validate_path (repo : Repo) (rootId : String) (path : String) : Except Err WEKOPath :=
  (validate_path repo rootId path).map (fun st => mkWEKOPath path st.ids)

/-! ## Metadata projections (metadata.py) -/

/-- Models `_get_parent_for_non_root_index`. -/
def _get_parent_for_non_root_index (root_index_id : String) (target : Option RIndex) :
    Option RIndex :=
  match target with
  | none => none
  | some t => if t.identifier = root_index_id then none else t.parent

theorem RIndex.parent_ancestors_length {x p : RIndex} (h : x.parent = some p) :
    p.ancestors.length < x.ancestors.length := by
  unfold RIndex.parent at h
  cases hl : x.ancestors.getLast? with
  | none => rw [hl] at h; exact absurd h (by simp)
  | some q =>
    rw [hl] at h
    have hne : x.ancestors ≠ [] := by
      intro he
      rw [he] at hl
      exact absurd hl (by simp)
    cases h
    simp only [List.length_dropLast]
    have : 0 < x.ancestors.length := List.length_pos.mpr hne
    omega

theorem parent_for_non_root_length {rootId : String} {t p : RIndex}
    (h : _get_parent_for_non_root_index rootId (some t) = some p) :
    p.ancestors.length < t.ancestors.length := by
  simp only [_get_parent_for_non_root_index] at h
  by_cases hc : t.identifier = rootId
  · rw [if_pos hc] at h; exact absurd h (by simp)
  · rw [if_neg hc] at h; exact RIndex.parent_ancestors_length h

/-- The while loop of `_index_to_path_parts`: climb parents, inserting at the
front, until the configured root (or a tree root) is the parent. The loop is
driven by an explicit bound it never exhausts: by
`parent_for_non_root_length` each step strictly shortens the ancestor chain,
so `ancestors.length + 1` steps always suffice. -/
def walkUp (rootId : String) : Nat → RIndex → List RIndex → List RIndex
  | 0, _, parts => parts
  | fuel + 1, t, parts =>
    match _get_parent_for_non_root_index rootId (some t) with
    | none => parts
    | some p => walkUp rootId fuel p (t :: parts)

/-- Models `_index_to_path_parts`: the chain from just below the configured
root down to the target (empty for the root itself). -/
def _index_to_path_parts (root_index_id : String) (target : RIndex) : List RIndex :=
  match _get_parent_for_non_root_index root_index_id (some target) with
  | none => []
  | some parent_index =>
    walkUp root_index_id (parent_index.ancestors.length + 1) parent_index [target]

/-- Models `_index_to_path` (backend ids with the reserved marker). -/
def _index_to_path (root_index_id : String) (target : RIndex) : String :=
  let r := joinSlash ((_index_to_path_parts root_index_id target).map
    (fun part => ITEM_MARKER ++ part.identifier))
  if r.data = [] then r else r ++ "/"

/-- Models `_index_to_materialized_path` (display titles). -/
def _index_to_materialized_path (root_index_id : String) (target : RIndex) : String :=
  let r := joinSlash ((_index_to_path_parts root_index_id target).map (fun part => part.title))
  if r.data = [] then r else r ++ "/"

/-- Models `WEKOIndexMetadata.materialized_path`. -/
def WEKOIndexMetadata_materialized_path (root_index_id : String) (raw : RIndex) : String :=
  "/" ++ _index_to_materialized_path root_index_id raw

/-- Models `WEKOIndexMetadata.path`. -/
def WEKOIndexMetadata_path (root_index_id : String) (raw : RIndex) : String :=
  "/" ++ _index_to_path root_index_id raw

/-- Models `WEKOItemMetadata.materialized_path` (`name` is the primary
title, computed at construction and propagating its failure). -/
def WEKOItemMetadata_materialized_path (root_index_id : String) (raw : ItemJson)
    (index : RIndex) : Except Err String :=
  (Item.primary_title raw).map (fun name =>
    "/" ++ _index_to_materialized_path root_index_id index ++ name ++ "/")

/-- Models `WEKOFileMetadata.materialized_path` (`item_title` is the item's
primary title; the identifier is the filename). -/
def WEKOFileMetadata_materialized_path (root_index_id : String) (file : FileDesc)
    (item : ItemJson) (index : RIndex) : Except Err String :=
  (Item.primary_title item).map (fun item_title =>
    "/" ++ _index_to_materialized_path root_index_id index ++ item_title ++ "/" ++ file.filename)

/-! ## Draft metadata (delegate-backed projections) -/

/-- One metadata entry of the delegate storage backend. In the spec-modelled
delegate used below, `path` and `materialized_path` coincide; the projection
functions treat them as independent fields exactly as the source does. -/
structure DEntry where
  name : String
  kind : String
  path : String
  materialized_path : String
deriving DecidableEq, Repr

/-- The state of `BaseWEKODraftMetadata`: configured root id, the raw
delegate entry, the index folder entry and the resolved index. -/
structure BaseWEKODraftMetadataS where
  root_index_id : String
  raw : DEntry
  index_folder : DEntry
  index : RIndex

/-- Models `BaseWEKODraftMetadata._relative_path`: strip the index folder's
materialized path as a prefix; a non-matching prefix raises `ValueError`. -/
def _relative_path (m : BaseWEKODraftMetadataS) : Except Err String :=
  let base_path := m.index_folder.materialized_path
  let item_path := m.raw.materialized_path
  if pyStartsWith item_path base_path then .ok (pyDropChars item_path base_path.length)
  else .error (.valueError "Unexpected path")

/-- Models `WEKODraftFolderMetadata._relative_path` (forces a trailing
slash). -/
def _relative_path_folder (m : BaseWEKODraftMetadataS) : Except Err String :=
  (_relative_path m).map (fun r => if pyEndsWithSlash r then r else r ++ "/")

/-- Models `BaseWEKODraftMetadata.path`. -/
def draft_path (m : BaseWEKODraftMetadataS) : Except Err String :=
  (_relative_path m).map (fun r => "/" ++ _index_to_path m.root_index_id m.index ++ r)

/-- Models `BaseWEKODraftMetadata.materialized_path`. -/
def draft_materialized_path (m : BaseWEKODraftMetadataS) : Except Err String :=
  (_relative_path m).map (fun r =>
    "/" ++ _index_to_materialized_path m.root_index_id m.index ++ r)

/-! ## Prefix-stripping lemmas -/

theorem pyStartsWith_append (base rest : String) :
    pyStartsWith (base ++ rest) base = true := by
  unfold pyStartsWith
  rw [String.data_append]
  exact List.isPrefixOf_iff_prefix.2 (List.prefix_append _ _)

theorem pyDropChars_append (base rest : String) :
    pyDropChars (base ++ rest) base.length = rest := by
  show String.mk (((base ++ rest).data).drop base.length) = rest
  rw [String.data_append]
  show String.mk ((base.data ++ rest.data).drop base.data.length) = rest
  rw [List.drop_left]

theorem _relative_path_of_append (m : BaseWEKODraftMetadataS) (rest : String)
    (h : m.raw.materialized_path = m.index_folder.materialized_path ++ rest) :
    _relative_path m = .ok rest := by
  unfold _relative_path
  simp only []
  rw [h, pyStartsWith_append]
  simp only [if_true]
  rw [pyDropChars_append]

/-! ## Split and join lemmas for materialized paths -/

theorem splitChars_ne_nil (cs : List Char) : splitChars cs ≠ [] := by
  cases cs with
  | nil => simp [splitChars]
  | cons c t =>
    unfold splitChars
    by_cases hc : c = '/'
    · simp [hc]
    · rw [if_neg hc]
      cases h : splitChars t <;> simp

theorem splitChars_no_slash (l : List Char) (h : '/' ∉ l) : splitChars l = [l] := by
  induction l with
  | nil => rfl
  | cons c t ih =>
    have hc : c ≠ '/' := fun he => h (by rw [he]; exact List.mem_cons_self _ _)
    have ht : '/' ∉ t := fun hm => h (List.mem_cons_of_mem _ hm)
    unfold splitChars
    rw [if_neg hc, ih ht]

theorem splitChars_slash_append (l cs : List Char) (h : '/' ∉ l) :
    splitChars (l ++ '/' :: cs) = l :: splitChars cs := by
  induction l with
  | nil => simp [splitChars]
  | cons c t ih =>
    have hc : c ≠ '/' := fun he => h (by rw [he]; exact List.mem_cons_self _ _)
    have ht : '/' ∉ t := fun hm => h (List.mem_cons_of_mem _ hm)
    rw [List.cons_append]
    conv_lhs => unfold splitChars
    rw [if_neg hc, ih ht]

theorem splitChars_joinSlashCs (ls : List (List Char)) (hne : ls ≠ [])
    (hgood : ∀ l ∈ ls, '/' ∉ l) : splitChars (joinSlashCs ls) = ls := by
  induction ls with
  | nil => exact absurd rfl hne
  | cons l rest ih =>
    cases rest with
    | nil => exact splitChars_no_slash l (hgood l (List.mem_cons_self _ _))
    | cons m ms =>
      show splitChars (l ++ '/' :: joinSlashCs (m :: ms)) = l :: m :: ms
      rw [splitChars_slash_append _ _ (hgood l (List.mem_cons_self _ _))]
      rw [ih (by simp) (fun x hx => hgood x (List.mem_cons_of_mem _ hx))]

theorem joinSlashCs_ne_nil (ls : List (List Char)) (hne : ls ≠ [])
    (hgood : ∀ l ∈ ls, l ≠ []) : joinSlashCs ls ≠ [] := by
  cases ls with
  | nil => exact absurd rfl hne
  | cons l rest =>
    cases rest with
    | nil => exact hgood l (List.mem_cons_self _ _)
    | cons m ms =>
      show l ++ '/' :: joinSlashCs (m :: ms) ≠ []
      simp

theorem joinSlashCs_getLast_ne_slash (ls : List (List Char)) (hne : ls ≠ [])
    (hgood : ∀ l ∈ ls, l ≠ [] ∧ '/' ∉ l) :
    (joinSlashCs ls).getLast? ≠ some '/' := by
  induction ls with
  | nil => exact absurd rfl hne
  | cons l rest ih =>
    cases rest with
    | nil =>
      show l.getLast? ≠ some '/'
      intro he
      exact (hgood l (List.mem_cons_self _ _)).2 (List.mem_of_mem_getLast? he)
    | cons m ms =>
      show (l ++ '/' :: joinSlashCs (m :: ms)).getLast? ≠ some '/'
      rw [List.getLast?_append]
      have hne2 : joinSlashCs (m :: ms) ≠ [] :=
        joinSlashCs_ne_nil _ (by simp) (fun x hx => (hgood x (List.mem_cons_of_mem _ hx)).1)
      have ih2 := ih (by simp) (fun x hx => hgood x (List.mem_cons_of_mem _ hx))
      cases hj : joinSlashCs (m :: ms) with
      | nil => exact absurd hj hne2
      | cons j js =>
        rw [hj] at ih2
        rw [List.getLast?_cons_cons]
        cases hgl : (j :: js).getLast? with
        | none => simp at hgl
        | some x =>
          rw [hgl] at ih2
          simp only [Option.or_some]
          exact ih2

theorem joinSlashCs_append_single (ls : List (List Char)) (x : List Char) (h : ls ≠ []) :
    joinSlashCs (ls ++ [x]) = joinSlashCs ls ++ '/' :: x := by
  induction ls with
  | nil => exact absurd rfl h
  | cons l rest ih =>
    cases rest with
    | nil => rfl
    | cons m ms =>
      have h1 : joinSlashCs (l :: ((m :: ms) ++ [x])) =
          l ++ '/' :: joinSlashCs ((m :: ms) ++ [x]) := rfl
      rw [List.cons_append, h1, ih (by simp)]
      show l ++ '/' :: (joinSlashCs (m :: ms) ++ '/' :: x) =
        (l ++ '/' :: joinSlashCs (m :: ms)) ++ '/' :: x
      simp [List.append_assoc]

theorem rstripSlashCs_append_slash (cs : List Char) :
    rstripSlashCs (cs ++ ['/']) = rstripSlashCs cs := by
  unfold rstripSlashCs
  rw [List.reverse_append]
  simp [List.dropWhile_cons]

theorem rstripSlashCs_no_slash (cs : List Char) (h : cs.getLast? ≠ some '/') :
    rstripSlashCs cs = cs := by
  unfold rstripSlashCs
  cases hr : cs.reverse with
  | nil => simp [List.reverse_eq_nil_iff.1 hr]
  | cons c t =>
    have hc : c ≠ '/' := by
      intro he
      apply h
      rw [← List.head?_reverse, hr, he]
      rfl
    rw [List.dropWhile_cons, if_neg (by simp [hc])]
    rw [← hr, List.reverse_reverse]

theorem splitParts_core (ls : List (List Char)) (hne : ls ≠ [])
    (hgood : ∀ l ∈ ls, l ≠ [] ∧ '/' ∉ l) :
    splitChars (rstripSlashCs ('/' :: joinSlashCs ls)) = [] :: ls := by
  have hlast : ('/' :: joinSlashCs ls).getLast? ≠ some '/' := by
    cases hj : joinSlashCs ls with
    | nil => exact absurd hj (joinSlashCs_ne_nil ls hne (fun l hl => (hgood l hl).1))
    | cons j js =>
      rw [List.getLast?_cons_cons, ← hj]
      exact joinSlashCs_getLast_ne_slash ls hne hgood
  rw [rstripSlashCs_no_slash _ hlast]
  rw [show splitChars ('/' :: joinSlashCs ls) = [] :: splitChars (joinSlashCs ls) from by
    conv_lhs => unfold splitChars
    rw [if_pos rfl]]
  rw [splitChars_joinSlashCs ls hne (fun l hl => (hgood l hl).2)]

/-- The path split of a rooted file-form materialized path. -/
theorem splitParts_of_data (path : String) (ls : List (List Char))
    (hdata : path.data = '/' :: joinSlashCs ls)
    (hne : ls ≠ []) (hgood : ∀ l ∈ ls, l ≠ [] ∧ '/' ∉ l) :
    splitParts path = "" :: ls.map (fun cs => String.mk cs) := by
  unfold splitParts
  rw [hdata, splitParts_core ls hne hgood]
  rfl

/-- The path split of a rooted directory-form materialized path. -/
theorem splitParts_of_data_dir (path : String) (ls : List (List Char))
    (hdata : path.data = '/' :: joinSlashCs ls ++ ['/'])
    (hne : ls ≠ []) (hgood : ∀ l ∈ ls, l ≠ [] ∧ '/' ∉ l) :
    splitParts path = "" :: ls.map (fun cs => String.mk cs) := by
  unfold splitParts
  rw [hdata]
  rw [show ('/' :: joinSlashCs ls ++ ['/']) = ('/' :: joinSlashCs ls) ++ ['/'] from by simp]
  rw [rstripSlashCs_append_slash, splitParts_core ls hne hgood]
  rfl

/-! ## The delegate storage backend and the provider operations

Modelled from the spec: the delegate backend's implementation is not among
the sources; its contract (section 6) is `validate_path(path) -> Path`,
`metadata(path) -> list of entries or a single file entry`,
`upload(stream, path) -> (entry, created)`, `download(path) -> byte stream`,
`delete(path) -> entry or null`, `create_folder(path) -> entry`. It is
modelled as an in-memory tree keyed by materialized path strings, with the
delegate-native path equal to the materialized path. Every call to the
remote repository, to the delegate backend, or to an object URL is recorded
in an ordered log. -/

inductive DCall where
  | validatePath (p : String)
  | metadata (p : String)
  | createFolder (p : String)
  | upload (p : String)
  | delete (p : String)
  | download (p : String) (range : Option (Nat × Nat))
deriving DecidableEq, Repr

inductive Call where
  | remote (c : RemoteCall)
  | deleg (c : DCall)
  | http (url : String) (range : Option (Nat × Nat)) (expects : List Nat)
deriving DecidableEq, Repr

/-- Modelled from the spec: the delegate backend's store of entries. -/
structure DelegFS where
  entries : List DEntry
deriving DecidableEq, Repr

structure World where
  repo : Repo
  fs : DelegFS

/-- The operation monad: a state-and-writer shape over `World`; an exception
keeps the state reached and the calls issued so far. -/
def M (α : Type) : Type := World → Except Err α × World × List Call

instance : Monad M where
  pure a := fun w => (.ok a, w, [])
  bind x f := fun w =>
    match x w with
    | (.ok a, w1, l1) =>
      match f a w1 with
      | (r, w2, l2) => (r, w2, l1 ++ l2)
    | (.error e, w1, l1) => (.error e, w1, l1)

def throwM {α : Type} (e : Err) : M α := fun w => (.error e, w, [])

def liftE {α : Type} (r : Except Err α) : M α := fun w => (r, w, [])

theorem bind_apply {α β : Type} (x : M α) (f : α → M β) (w : World) :
    (x >>= f) w =
      match x w with
      | (.ok a, w1, l1) =>
        match f a w1 with
        | (r, w2, l2) => (r, w2, l1 ++ l2)
      | (.error e, w1, l1) => (.error e, w1, l1) := rfl

theorem pure_apply {α : Type} (a : α) (w : World) :
    (pure a : M α) w = (.ok a, w, []) := rfl

/-- Modelled from the spec: returns the last path segment name. -/
def lastSegName (p : String) : String :=
  (splitParts p).getLastD ""

/-- Modelled from the spec: whether `child` is a direct child location of the
folder path `base` (which ends in a slash). -/
def isDirectChild (base child : String) : Bool :=
  base.data.isPrefixOf child.data && decide (child ≠ base) &&
    (let r := child.data.drop base.data.length
     let core := if r.getLast? = some '/' then r.dropLast else r
     decide (core ≠ []) && !core.contains '/')

/-- A delegate metadata result: a listing for a folder path, a single entry
for a file path. -/
inductive DMeta where
  | single (e : DEntry)
  | listing (es : List DEntry)
deriving DecidableEq, Repr

/-- Iterating a metadata result: iterating a single entry raises
`TypeError` in Python. -/
def DMeta.iterList : DMeta → Except Err (List DEntry)
  | .single _ => .error (.pyError "TypeError: not iterable")
  | .listing es => .ok es

/-- Accessing `.path` on a metadata result: a listing has no such attribute
(`AttributeError` in Python). -/
def DMeta.singleEntry : DMeta → Except Err DEntry
  | .single e => .ok e
  | .listing _ => .error (.pyError "AttributeError: path")

/-- Modelled from the spec: `validate_path` of the delegate backend (the
native path is the materialized path string). -/
def deleg_validate_path (p : String) : M String :=
  fun w => (.ok p, w, [.deleg (.validatePath p)])

/-- Modelled from the spec: `metadata` of the delegate backend. -/
def deleg_metadata (p : String) : M DMeta :=
  fun w =>
    match w.fs.entries.filter (fun e => e.materialized_path = p && e.kind = "file") with
    | e :: _ => (.ok (.single e), w, [.deleg (.metadata p)])
    | [] => (.ok (.listing (w.fs.entries.filter (fun e => isDirectChild p e.materialized_path))),
             w, [.deleg (.metadata p)])

/-- Modelled from the spec: `create_folder` of the delegate backend. -/
def deleg_create_folder (p : String) : M DEntry :=
  fun w =>
    let e : DEntry := ⟨lastSegName p, "folder", p, p⟩
    (.ok e, ⟨w.repo, ⟨w.fs.entries ++ [e]⟩⟩, [.deleg (.createFolder p)])

/-- Modelled from the spec: `upload` of the delegate backend; `created` tells
whether the path was new. -/
def deleg_upload (p : String) : M (DEntry × Bool) :=
  fun w =>
    let e : DEntry := ⟨lastSegName p, "file", p, p⟩
    let created := w.fs.entries.all (fun x => x.materialized_path ≠ p)
    (.ok (e, created),
     ⟨w.repo, ⟨(w.fs.entries.filter (fun x => x.materialized_path ≠ p)) ++ [e]⟩⟩,
     [.deleg (.upload p)])

/-- Modelled from the spec: `delete` of the delegate backend (`null` when the
path does not exist). -/
def deleg_delete (p : String) : M (Option DEntry) :=
  fun w =>
    match w.fs.entries.find? (fun x => x.path = p) with
    | none => (.ok none, w, [.deleg (.delete p)])
    | some e =>
      (.ok (some e), ⟨w.repo, ⟨w.fs.entries.filter (fun x => x.path ≠ p)⟩⟩, [.deleg (.delete p)])

/-- A download result: a stream fetched from an object URL, or a stream
delegated to the backend. -/
inductive DownloadRes where
  | remoteStream (url : String)
  | delegated (p : String)
deriving DecidableEq, Repr

/-- Modelled from the spec: `download` of the delegate backend. -/
def deleg_download (p : String) (range : Option (Nat × Nat)) : M DownloadRes :=
  fun w => (.ok (.delegated p), w, [.deleg (.download p range)])

/-- Models `make_request('GET', url, range=range, expects=(200, 206))`
followed by wrapping the response stream. -/
def http_get (url : String) (range : Option (Nat × Nat)) : M DownloadRes :=
  fun w => (.ok (.remoteStream url), w, [.http url range [200, 206]])

/-- Remote lookups inside provider operations, with their call events. -/
def getIndexByIdM (id : String) : M RIndex :=
  fun w => ((getIndexById w.repo id), w, [.remote .getTree])

def getItemByIdM (id : String) : M ItemJson :=
  fun w => ((getItemById w.repo id), w, [.remote (.record id)])

def NAME : String := "weko"

/-- Models `WEKOProvider.get_draft_folder`: look up (or create) the
provider-root marker folder at the delegate root. -/
def get_draft_folder (creates : Bool) : M (Option DEntry) := do
  let root_folder_path ← deleg_validate_path "/"
  let root_md ← deleg_metadata root_folder_path
  let entries ← liftE root_md.iterList
  match entries.filter (fun child => child.name = "." ++ NAME) with
  | f :: _ => pure (some f)
  | [] =>
    if !creates then pure none
    else do
      let draft_folder_path ← deleg_validate_path ("/." ++ NAME ++ "/")
      let folder ← deleg_create_folder draft_folder_path
      pure (some folder)

/-- Models `WEKOProvider.get_index_folder`: the same pattern one level
deeper, scanning the marker folder's children for the index id. -/
def get_index_folder (index_id : String) (creates : Bool) : M (Option DEntry) := do
  let draft? ← get_draft_folder creates
  match draft? with
  | none => pure none
  | some draft_folder => do
    let draft_folder_path ← deleg_validate_path draft_folder.path
    let md ← deleg_metadata draft_folder_path
    let entries ← liftE md.iterList
    match entries.filter (fun child => child.name = index_id) with
    | f :: _ => pure (some f)
    | [] =>
      if !creates then pure none
      else do
        let index_folder_path ← deleg_validate_path (draft_folder.path ++ index_id ++ "/")
        let folder ← deleg_create_folder index_folder_path
        pure (some folder)

theorem WEKOPath.split_path_some_length {p : WEKOPath} {q : WEKOPathPart}
    (h : p.split_path.2 = some q) :
    p.split_path.1.parts.length < p.parts.length := by
  unfold WEKOPath.split_path at h ⊢
  by_cases h1 : p.parts.length = 1
  · rw [if_pos h1] at h; exact absurd h (by simp)
  · rw [if_neg h1] at h ⊢
    have hne : p.parts ≠ [] := by
      intro he
      rw [he] at h
      exact absurd h (by simp)
    have : 0 < p.parts.length := List.length_pos.mpr hne
    simp only [List.length_dropLast]
    omega

/-- Models `WEKOProvider.get_draft_file_metadata`: resolve an
arbitrary-depth sub-path one segment at a time, starting at the index
folder; a parent resolving to a file raises a structural error; the full
listing is returned for the index folder itself and for directory paths.
The recursion on the parent path is driven by an explicit bound it never
exhausts: by `WEKOPath.split_path_some_length` each recursive call drops one
part, so the part count suffices. -/
def get_draft_file_metadataF (index_folder : DEntry) : Nat → WEKOPath → M DMeta
  | 0, _ => throwM (.pyError "RecursionError")
  | fuel + 1, draft_path =>
    match draft_path.split_path.2 with
    | none => do
      let index_folder_path ← deleg_validate_path index_folder.path
      deleg_metadata index_folder_path
    | some last_part => do
      let draft_parent_metadata ← get_draft_file_metadataF index_folder fuel draft_path.split_path.1
      match draft_parent_metadata with
      | .single e =>
        if e.kind = "file" then throwM (.metadataError "invalid" 400)
        else throwM (.pyError "TypeError: not iterable")
      | .listing children =>
        match children.filter (fun child => child.name = last_part.materialized) with
        | [] => throwM (.metadataError "File not found" 404)
        | f :: _ =>
          if !draft_path.is_dir then pure (.single f)
          else do
            let draft_folder_path ← deleg_validate_path f.path
            deleg_metadata draft_folder_path

def get_draft_file_metadata (index_folder : DEntry) (draft_path : WEKOPath) : M DMeta :=
  get_draft_file_metadataF index_folder (draft_path.parts.length + 1) draft_path

/-- Models `WEKOProvider._get_last_index_for`. -/
def _get_last_index_forM (rootId : String) (path : WEKOPath) : M RIndex :=
  match (path.parts.filter (fun p => p.is_index)).getLast? with
  | some p => getIndexByIdM (pyStrOpt p.identifier_value)
  | none => getIndexByIdM rootId

/-- Models `WEKOProvider._get_last_item_for`. -/
def _get_last_item_forM (path : WEKOPath) : M ItemJson :=
  match (path.parts.filter (fun p => p.is_item)).getLast? with
  | none => throwM (.metadataError "Illegal parts" 400)
  | some p => getItemByIdM (pyStrOpt p.identifier_value)

/-- The state of a `WEKODraftFileMetadata` / `WEKODraftFolderMetadata`
object returned by the write operations. -/
structure WrappedDraft where
  isFolder : Bool
  meta : BaseWEKODraftMetadataS

/-- Models `WEKOProvider._wrap_draft_metadata` for a single entry. -/
def _wrap_draft_metadata (rootId : String) (e : DEntry) (index_folder : DEntry)
    (index : RIndex) : WrappedDraft :=
  ⟨e.kind = "folder", ⟨rootId, e, index_folder, index⟩⟩

/-- Models `WEKOProvider.create_folder`. -/
def weko_create_folder (rootId : String) (path : WEKOPath) : M WrappedDraft := do
  if !path.is_draft_file then throwM (.metadataError "Cannot create folders to the item" 400)
  else do
    let index ← _get_last_index_forM rootId path
    let folder? ← get_index_folder index.identifier true
    match folder? with
    | none => throwM (.pyError "AttributeError: NoneType")
    | some index_folder =>
      match (path.split_draft_file_path).2 with
      | none => throwM (.pyError "AttributeError: NoneType")
      | some draft_path => do
        let draft_parent_path := draft_path.split_path.1
        match draft_path.split_path.2 with
        | none => throwM (.pyError "AttributeError: NoneType")
        | some last_part => do
          let parent_folder_metadata ←
            if draft_parent_path.parts.length = 1 then pure index_folder
            else do
              let md ← get_draft_file_metadata index_folder draft_parent_path.as_file
              liftE md.singleEntry
          let draft_path2 ← deleg_validate_path (parent_folder_metadata.path ++ last_part.value)
          let metadata ← deleg_create_folder draft_path2
          pure ⟨true, ⟨rootId, metadata, index_folder, index⟩⟩

/-- Models `WEKOProvider.upload`. The streaming hash writers (md5, sha1,
sha256, sha512) attached to the stream in the source are a side effect on
the byte stream and are not modelled. -/
def weko_upload (rootId : String) (path : WEKOPath) : M (WrappedDraft × Bool) := do
  if !path.is_draft_file then throwM (.metadataError "Cannot upload files to the item" 404)
  else do
    let index ← _get_last_index_forM rootId path
    let folder? ← get_index_folder index.identifier true
    match folder? with
    | none => throwM (.pyError "AttributeError: NoneType")
    | some index_folder =>
      match (path.split_draft_file_path).2 with
      | none => throwM (.pyError "AttributeError: NoneType")
      | some draft_path => do
        let draft_parent_path := draft_path.split_path.1
        match draft_path.split_path.2 with
        | none => throwM (.pyError "AttributeError: NoneType")
        | some last_part => do
          let parent_folder_metadata ←
            if draft_parent_path.parts.length = 1 then pure index_folder
            else do
              let md ← get_draft_file_metadata index_folder draft_parent_path.as_file
              liftE md.singleEntry
          let draft_path2 ← deleg_validate_path (parent_folder_metadata.path ++ last_part.value)
          let r ← deleg_upload draft_path2
          pure (⟨false, ⟨rootId, r.1, index_folder, index⟩⟩, r.2)

/-- Models `WEKOProvider.delete` (note: the index folder is looked up
without `creates`). -/
def weko_delete (rootId : String) (path : WEKOPath) : M (Option WrappedDraft) := do
  if !path.is_draft_file then throwM (.metadataError "Unsupported operation" 400)
  else do
    let index ← _get_last_index_forM rootId path
    let folder? ← get_index_folder index.identifier false
    match folder? with
    | none => throwM (.metadataError "Unexpected path" 404)
    | some index_folder =>
      match (path.split_draft_file_path).2 with
      | none => throwM (.pyError "AttributeError: NoneType")
      | some last_path => do
        let md ← get_draft_file_metadata index_folder last_path.as_file
        let file_metadata ← liftE md.singleEntry
        let file_path ← deleg_validate_path file_metadata.path
        let r ← deleg_delete file_path
        match r with
        | none => pure none
        | some m => pure (some (_wrap_draft_metadata rootId m index_folder index))

/-- Models `WEKOProvider.download`. -/
def weko_download (rootId : String) (path : WEKOPath) (range : Option (Nat × Nat)) :
    M DownloadRes := do
  let index ← _get_last_index_forM rootId path
  if path.is_draft_file then do
    let folder? ← get_index_folder index.identifier false
    match folder? with
    | none => throwM (.metadataError "Unexpected path" 404)
    | some index_folder =>
      match (path.split_draft_file_path).2 with
      | none => throwM (.pyError "AttributeError: NoneType")
      | some last_path => do
        let md ← get_draft_file_metadata index_folder last_path
        let file_metadata ← liftE md.singleEntry
        let file_path ← deleg_validate_path file_metadata.path
        deleg_download file_path range
  else if !path.is_item_file then throwM (.metadataError "Illegal parts" 400)
  else do
    let item ← _get_last_item_forM path
    match path.parts.getLast? with
    | none => throwM (.pyError "IndexError: list index out of range")
    | some last_part => do
      let fs ← liftE (Item.files item)
      match fs.filter (fun f =>
          match last_part.identifier_value with
          | some v => f.filename = v
          | none => false) with
      | [] => throwM (.metadataError "File not found" 404)
      | f :: _ => http_get (Item.download_url f) range

/-! ## Concrete scenarios

The repositories and paths of the specification's scenarios (one index 100
titled `Sample Index` with sub-index 101 `Sub Index`, one item 1000
`Sample Item` holding `file.txt`). -/

def item1000 : ItemJson :=
  ⟨"1000",
   [("title", .vstr "Sample Item")],
   some [("title", .vstr "Sample Item"),
         ("item_dummy_content", .ventry none []),
         ("item_dummy_files", .ventry (some "file")
           [⟨"file.txt", none, "1", "https://repo.example/objects/1000/file.txt"⟩])]⟩

def repoA : Repo :=
  ⟨[.mk "100" "Sample Index" [.mk "101" "Sub Index" []]],
   [("100", [item1000]), ("101", [])],
   [("1000", item1000)]⟩

def worldA : World := ⟨repoA, ⟨[]⟩⟩

/-- A delegate store already holding the draft skeleton and one draft
file. -/
def worldB : World :=
  ⟨repoA, ⟨[⟨".weko", "folder", "/.weko/", "/.weko/"⟩,
            ⟨"100", "folder", "/.weko/100/", "/.weko/100/"⟩,
            ⟨"birdie.jpg", "file", "/.weko/100/birdie.jpg", "/.weko/100/birdie.jpg"⟩]⟩⟩

/-- The scenario-D repository: only the configured root index 100, no items,
no drafts. -/
def repoD : Repo := ⟨[.mk "100" "Sample Index" []], [("100", [])], []⟩

def worldD : World := ⟨repoD, ⟨[]⟩⟩

def pathBirdie : WEKOPath :=
  ⟨[⟨"", some ⟨.root, "", ""⟩⟩,
    ⟨"birdie.jpg", some ⟨.draft_file, "birdie.jpg", "birdie.jpg"⟩⟩], false⟩

def pathNewFolder : WEKOPath :=
  ⟨[⟨"", some ⟨.root, "", ""⟩⟩,
    ⟨"newfolder", some ⟨.draft_file, "newfolder", "newfolder"⟩⟩], true⟩

def pathItemFile : WEKOPath :=
  ⟨[⟨"", some ⟨.root, "", ""⟩⟩,
    ⟨"Sample Item", some ⟨.item, "1000", "Sample Item"⟩⟩,
    ⟨"file.txt", some ⟨.item_file, "file.txt", "file.txt"⟩⟩], false⟩

def pathRoot : WEKOPath := ⟨[⟨"", some ⟨.root, "", ""⟩⟩], true⟩

/-- A repository with two sibling sub-indices sharing the title `Dup`. -/
def repoDup : Repo :=
  ⟨[.mk "100" "Sample Index" [.mk "101" "Dup" [], .mk "102" "Dup" []]],
   [("100", []), ("101", []), ("102", [])],
   []⟩

/-- The second `Dup` sub-index as the client resolves it. -/
def idx102 : RIndex :=
  ⟨.mk "102" "Dup" [], [.mk "100" "Sample Index" [.mk "101" "Dup" [], .mk "102" "Dup" []]]⟩

/-- Entries used by the draft relative-path claims. -/
def entIndexFolder : DEntry := ⟨"100", "folder", "/.weko/100/", "/.weko/100/"⟩

def entDraftGood : DEntry :=
  ⟨"a.txt", "file", "/.weko/100/a.txt", "/.weko/100/a.txt"⟩

def entDraftBad : DEntry :=
  ⟨"b.txt", "file", "/elsewhere/b.txt", "/elsewhere/b.txt"⟩

/-- A delegate entry whose materialized path equals an already-stripped
relative path. -/
def entRestripped : DEntry := ⟨"a.txt", "file", "a.txt", "a.txt"⟩

def idxSample : RIndex := ⟨.mk "100" "Sample Index" [], []⟩

/-- An item without any metadata entry tagged as a file attribute. -/
def itemNoFiles : ItemJson := ⟨"2000", [("title", .vstr "T")], none⟩

def fdescOne : FileDesc := ⟨"f.txt", none, "1", "https://repo.example/objects/2001/f.txt"⟩

/-- An item with one file-tagged metadata entry. -/
def itemWithFiles : ItemJson :=
  ⟨"2001", [],
   some [("title", .vstr "T"),
         ("item_other", .ventry none []),
         ("item_files", .ventry (some "file") [fdescOne])]⟩

/-! ## Structural invariants of resolved id sequences -/

/-- After any `item`-kind id, no `index`-kind id occurs. -/
def noIndexAfterItemB : List SegId → Bool
  | [] => true
  | t :: rest =>
    if t.kind = SegKind.item then
      rest.all (fun u => decide (u.kind ≠ SegKind.index)) && noIndexAfterItemB rest
    else noIndexAfterItemB rest

/-- An `item_file`-kind id occurs only in the last position. -/
def itemFileLastB : List SegId → Bool
  | [] => true
  | [_] => true
  | t :: u :: rest => decide (t.kind ≠ SegKind.item_file) && itemFileLastB (u :: rest)

/-- The structural part of the resolved-path invariant: at most one `item`
id, no `index` id after an `item` id, nothing after an `item_file` id. -/
def structuralInvariant (ids : List SegId) : Bool :=
  decide (ids.countP (fun t => decide (t.kind = SegKind.item)) ≤ 1) &&
    noIndexAfterItemB ids && itemFileLastB ids

/-- Every id of draft-file kind is the opaque triple built from the literal
segment it is parallel to. -/
def draftOpaqueB (parts : List String) (ids : List SegId) : Bool :=
  (parts.zip ids).all (fun q =>
    !(decide (q.2.kind = SegKind.draft_file)) || decide (q.2 = ⟨SegKind.draft_file, q.1, q.1⟩))

/-- The induction invariant carried through the resolver loop. -/
structure Inv (st : ResState) : Prop where
  noItemIds : st.item = none → ∀ t ∈ st.ids, t.kind ≠ SegKind.item
  countLe : st.ids.countP (fun t => decide (t.kind = SegKind.item)) ≤ 1
  noIdxAfter : noIndexAfterItemB st.ids = true
  noFileIds : st.file = none → ∀ t ∈ st.ids, t.kind ≠ SegKind.item_file
  fileItem : st.file.isSome = true → st.item.isSome = true
  ifLast : itemFileLastB st.ids = true

theorem noIndexAfterItemB_append {l : List SegId} {t : SegId}
    (hl : noIndexAfterItemB l = true)
    (ht : t.kind ≠ SegKind.index ∨ ∀ u ∈ l, u.kind ≠ SegKind.item) :
    noIndexAfterItemB (l ++ [t]) = true := by
  induction l with
  | nil =>
    by_cases h : t.kind = SegKind.item <;> simp [noIndexAfterItemB, h]
  | cons u rest ih =>
    simp only [noIndexAfterItemB, List.cons_append, List.append_eq] at hl ⊢
    by_cases hu : u.kind = SegKind.item
    · rw [if_pos hu] at hl
      rw [if_pos hu]
      simp only [Bool.and_eq_true] at hl
      have ht' : t.kind ≠ SegKind.index := by
        cases ht with
        | inl h => exact h
        | inr h => exact absurd hu (h u (List.mem_cons_self u rest))
      have hall : (rest ++ [t]).all (fun u => decide (u.kind ≠ SegKind.index)) = true := by
        rw [List.all_append, hl.1]
        simp [ht']
      rw [hall, ih hl.2 (Or.inl ht')]
      rfl
    · rw [if_neg hu] at hl
      rw [if_neg hu]
      refine ih hl ?_
      cases ht with
      | inl h => exact Or.inl h
      | inr h => exact Or.inr (fun v hv => h v (List.mem_cons_of_mem _ hv))

theorem itemFileLastB_append {l : List SegId} (t : SegId)
    (h : ∀ u ∈ l, u.kind ≠ SegKind.item_file) :
    itemFileLastB (l ++ [t]) = true := by
  induction l with
  | nil => rfl
  | cons u rest ih =>
    cases rest with
    | nil =>
      show itemFileLastB [u, t] = true
      have hu : u.kind ≠ SegKind.item_file := h u (List.mem_cons_self u [])
      simp [itemFileLastB, hu]
    | cons v rest2 =>
      show itemFileLastB (u :: ((v :: rest2) ++ [t])) = true
      have hu : u.kind ≠ SegKind.item_file := h u (List.mem_cons_self _ _)
      have hrec := ih (fun x hx => h x (List.mem_cons_of_mem _ hx))
      simp only [List.cons_append] at hrec ⊢
      unfold itemFileLastB
      simp [hu, hrec]

theorem countP_item_eq_zero {l : List SegId}
    (h : ∀ t ∈ l, t.kind ≠ SegKind.item) :
    l.countP (fun t => decide (t.kind = SegKind.item)) = 0 := by
  rw [List.countP_eq_zero]
  intro a ha
  simpa using h a ha

/-- The characterization of `resolvePart` on an ordinary segment consumed in
the NONE or IN_INDEX state: guards discharged, the body is the three-step
classification. -/
theorem resolvePart_ordinary (repo : Repo) (rootId : String) (i : Nat) (part : String)
    (st : ResState) (hitem : st.item = none) (hfile : st.file = none)
    (hmk : pyStartsWith part ITEM_MARKER = false)
    (hroot : ¬(part = "" ∧ i = 0)) :
    resolvePart repo rootId i part st =
      match effIndex repo rootId st with
      | .error e => .error e
      | .ok p =>
        match p.1.children.filter (fun c => c.title = part) with
        | c :: _ =>
          .ok { st with
                ids := st.ids ++ [⟨.index, c.identifier, c.title⟩],
                index := some c, log := st.log ++ p.2 }
        | [] =>
          match getItems repo p.1 with
          | .error e => .error e
          | .ok items =>
            match filterByTitle items part with
            | .error e => .error e
            | .ok (c :: _) =>
              match Item.primary_title c with
              | .error e => .error e
              | .ok pt =>
                .ok { st with
                      ids := st.ids ++ [⟨.item, Item.identifier c, pt⟩],
                      index := some p.1, item := some c,
                      log := st.log ++ p.2 ++ [.search p.1.identifier] }
            | .ok [] =>
              .ok { st with
                    ids := st.ids ++ [⟨.draft_file, part, part⟩],
                    index := some p.1,
                    log := st.log ++ p.2 ++ [.search p.1.identifier] } := by
  unfold resolvePart
  rw [hmk]
  simp only [Bool.false_eq_true, if_false, hfile, Option.isSome_none, if_neg hroot, hitem]

theorem file_none_of_item_none {st : ResState} (h : Inv st) (hi : st.item = none) :
    st.file = none := by
  cases hf : st.file with
  | none => rfl
  | some f =>
    have := h.fileItem (by rw [hf]; rfl)
    rw [hi] at this
    exact absurd this (by simp)

theorem Inv.init : Inv ⟨[], none, none, none, []⟩ := by
  constructor <;> simp [noIndexAfterItemB, itemFileLastB]

theorem Inv.step {st : ResState} (h : Inv st) (t : SegId) (ni : Option RIndex)
    (nit : Option ItemJson) (nf : Option FileDesc) (nlog : List RemoteCall)
    (hfile0 : st.file = none)
    (hidx : t.kind = SegKind.index → st.item = none)
    (hitm : t.kind = SegKind.item → st.item = none)
    (hkitem : t.kind = SegKind.item → nit.isSome = true)
    (hnit : nit = st.item ∨ t.kind = SegKind.item)
    (hfi : nf.isSome = true → nit.isSome = true)
    (hnf : t.kind = SegKind.item_file → nf.isSome = true) :
    Inv ⟨st.ids ++ [t], ni, nit, nf, nlog⟩ := by
  refine ⟨?_, ?_, ?_, ?_, ?_, ?_⟩ <;> dsimp only
  · intro hn u hu
    have ht : t.kind ≠ SegKind.item := by
      intro hk
      have := hkitem hk
      rw [hn] at this
      exact absurd this (by simp)
    have hsti : st.item = none := by
      cases hnit with
      | inl he => rw [← he]; exact hn
      | inr hk => exact absurd hk ht
    rcases List.mem_append.1 hu with h1 | h2
    · exact h.noItemIds hsti u h1
    · rw [List.mem_singleton.1 h2]; exact ht
  · show ((st.ids ++ [t]).countP fun u => decide (u.kind = SegKind.item)) ≤ 1
    rw [List.countP_append]
    by_cases hk : t.kind = SegKind.item
    · have hz := countP_item_eq_zero (h.noItemIds (hitm hk))
      rw [hz]
      simp [List.countP_cons, hk]
    · have hz : ([t].countP fun u => decide (u.kind = SegKind.item)) = 0 := by
        simp [List.countP_cons, hk]
      rw [hz]
      simpa using h.countLe
  · exact noIndexAfterItemB_append h.noIdxAfter (by
      by_cases hk : t.kind = SegKind.index
      · exact Or.inr (h.noItemIds (hidx hk))
      · exact Or.inl hk)
  · intro hn u hu
    have ht : t.kind ≠ SegKind.item_file := by
      intro hk
      have := hnf hk
      rw [hn] at this
      exact absurd this (by simp)
    rcases List.mem_append.1 hu with h1 | h2
    · exact h.noFileIds hfile0 u h1
    · rw [List.mem_singleton.1 h2]; exact ht
  · exact hfi
  · exact itemFileLastB_append t (h.noFileIds hfile0)

/-- One successful resolver step preserves the invariant, appends exactly
one id, and an appended draft-file id is the opaque triple of the literal
segment. -/
theorem resolvePart_preserves {repo : Repo} {rootId : String} {i : Nat} {part : String}
    {st st' : ResState} (h : Inv st)
    (hok : resolvePart repo rootId i part st = .ok st') :
    Inv st' ∧ ∃ t, st'.ids = st.ids ++ [t] ∧
      (t.kind = SegKind.draft_file → t = ⟨SegKind.draft_file, part, part⟩) := by
  unfold resolvePart at hok
  by_cases hmk : pyStartsWith part ITEM_MARKER = true
  · rw [if_pos hmk] at hok
    cases hpid : parse_item_file_id part with
    | none =>
      simp only [hpid] at hok
      cases hitem : st.item with
      | some it0 => simp only [hitem] at hok; simp at hok
      | none =>
        simp only [hitem, Option.isSome_none, Bool.false_eq_true, if_false] at hok
        cases hgi : getIndexById repo (pyDropChars part ITEM_MARKER.length) with
        | error e => simp only [hgi] at hok; simp at hok
        | ok ix =>
          simp only [hgi, Except.ok.injEq] at hok
          subst hok
          refine ⟨Inv.step h _ _ _ _ _ (file_none_of_item_none h hitem) (fun _ => hitem)
              (fun hk => nomatch hk) (fun hk => nomatch hk)
              (Or.inl hitem.symm) ?_ (fun hk => nomatch hk),
            _, rfl, fun hk => nomatch hk⟩
          rw [file_none_of_item_none h hitem]
          intro habs
          simp at habs
    | some item_id =>
      simp only [hpid] at hok
      cases hitem : st.item with
      | some it0 => simp only [hitem] at hok; simp at hok
      | none =>
        simp only [hitem, Option.isSome_none, Bool.false_eq_true, if_false] at hok
        cases heff : effIndex repo rootId st with
        | error e => simp only [heff] at hok; simp at hok
        | ok p =>
          simp only [heff] at hok
          cases hrec : getItemById repo item_id with
          | error e => simp only [hrec] at hok; simp at hok
          | ok it =>
            simp only [hrec] at hok
            cases hpt : Item.primary_title it with
            | error e => simp only [hpt] at hok; simp at hok
            | ok pt =>
              simp only [hpt, Except.ok.injEq] at hok
              subst hok
              exact ⟨Inv.step h _ _ _ _ _ (file_none_of_item_none h hitem)
                  (fun hk => nomatch hk) (fun _ => hitem) (fun _ => rfl)
                  (Or.inr rfl) (fun _ => rfl) (fun hk => nomatch hk),
                _, rfl, fun hk => nomatch hk⟩
  · rw [if_neg hmk] at hok
    cases hfile : st.file with
    | some f0 => simp only [hfile] at hok; simp at hok
    | none =>
      simp only [hfile, Option.isSome_none, Bool.false_eq_true, if_false] at hok
      by_cases hroot : part = "" ∧ i = 0
      · rw [if_pos hroot] at hok
        simp only [Except.ok.injEq] at hok
        subst hok
        refine ⟨Inv.step h _ _ _ _ _ hfile (fun hk => nomatch hk)
            (fun hk => nomatch hk) (fun hk => nomatch hk)
            (Or.inl rfl) ?_ (fun hk => nomatch hk),
          _, rfl, fun hk => nomatch hk⟩
        intro habs
        simp at habs
      · rw [if_neg hroot] at hok
        cases hitem : st.item with
        | some it =>
          simp only [hitem] at hok
          cases hfs : Item.files it with
          | error e => simp only [hfs] at hok; simp at hok
          | ok fs =>
            simp only [hfs] at hok
            cases hfl : fs.filter (fun f => f.filename = part) with
            | nil => simp only [hfl] at hok; simp at hok
            | cons f rest =>
              simp only [hfl, Except.ok.injEq] at hok
              subst hok
              exact ⟨Inv.step h _ _ _ _ _ hfile (fun hk => nomatch hk)
                  (fun hk => nomatch hk) (fun hk => nomatch hk)
                  (Or.inl hitem.symm) (fun _ => rfl) (fun _ => rfl),
                _, rfl, fun hk => nomatch hk⟩
        | none =>
          simp only [hitem] at hok
          cases heff : effIndex repo rootId st with
          | error e => simp only [heff] at hok; simp at hok
          | ok p =>
            simp only [heff] at hok
            cases hch : p.1.children.filter (fun c => c.title = part) with
            | cons c cs =>
              simp only [hch, Except.ok.injEq] at hok
              subst hok
              refine ⟨Inv.step h _ _ _ _ _ hfile (fun _ => hitem)
                  (fun hk => nomatch hk) (fun hk => nomatch hk)
                  (Or.inl hitem.symm) ?_ (fun hk => nomatch hk),
                _, rfl, fun hk => nomatch hk⟩
              intro habs
              simp at habs
            | nil =>
              simp only [hch] at hok
              cases hgi : getItems repo p.1 with
              | error e => simp only [hgi] at hok; simp at hok
              | ok items =>
                simp only [hgi] at hok
                cases hft : filterByTitle items part with
                | error e => simp only [hft] at hok; simp at hok
                | ok cands =>
                  simp only [hft] at hok
                  cases cands with
                  | cons c cs =>
                    cases hpt : Item.primary_title c with
                    | error e => simp only [hpt] at hok; simp at hok
                    | ok pt =>
                      simp only [hpt, Except.ok.injEq] at hok
                      subst hok
                      exact ⟨Inv.step h _ _ _ _ _ hfile
                          (fun hk => nomatch hk) (fun _ => hitem) (fun _ => rfl)
                          (Or.inr rfl) (fun _ => rfl) (fun hk => nomatch hk),
                        _, rfl, fun hk => nomatch hk⟩
                  | nil =>
                    simp only [Except.ok.injEq] at hok
                    subst hok
                    refine ⟨Inv.step h _ _ _ _ _ hfile (fun hk => nomatch hk)
                        (fun hk => nomatch hk) (fun hk => nomatch hk)
                        (Or.inl hitem.symm) ?_ (fun hk => nomatch hk),
                      _, rfl, fun _ => rfl⟩
                    intro habs
                    simp at habs

/-- The head of a successful title filter has the title filtered for. -/
theorem filterByTitle_head_title {items : List ItemJson} {t : String} {it : ItemJson}
    {its : List ItemJson} (h : filterByTitle items t = .ok (it :: its)) :
    Item.primary_title it = .ok t := by
  induction items generalizing it its with
  | nil => exact absurd h (by simp [filterByTitle])
  | cons a rest ih =>
    unfold filterByTitle at h
    cases hpt : Item.primary_title a with
    | error e => rw [hpt] at h; exact absurd h (by simp [Bind.bind, Except.bind])
    | ok pt =>
      rw [hpt] at h
      simp only [Bind.bind, Except.bind] at h
      cases hr : filterByTitle rest t with
      | error e => rw [hr] at h; exact absurd h (by simp)
      | ok r =>
        rw [hr] at h
        simp only [pure, Except.pure, Except.ok.injEq] at h
        by_cases hptt : pt = t
        · rw [if_pos hptt] at h
          injection h with h1 h2
          rw [← h1, hpt, hptt]
        · rw [if_neg hptt] at h
          exact ih (by rw [hr, h])

/-- Folding the resolver over a segment list preserves the invariant and
appends one id per segment, draft ids being opaque. -/
theorem validatePathAux_inv {repo : Repo} {rootId : String} :
    ∀ (parts : List String) (i : Nat) (st st' : ResState),
    Inv st → validatePathAux repo rootId i parts st = .ok st' →
    Inv st' ∧ ∃ new, st'.ids = st.ids ++ new ∧ draftOpaqueB parts new = true := by
  intro parts
  induction parts with
  | nil =>
    intro i st st' h hok
    unfold validatePathAux at hok
    simp only [Except.ok.injEq] at hok
    subst hok
    exact ⟨h, [], by simp, rfl⟩
  | cons part rest ih =>
    intro i st st' h hok
    unfold validatePathAux at hok
    cases hstep : resolvePart repo rootId i part st with
    | error e => simp only [hstep] at hok; simp at hok
    | ok st1 =>
      simp only [hstep] at hok
      obtain ⟨h1, t, hids1, hdraft1⟩ := resolvePart_preserves h hstep
      obtain ⟨h2, new, hids2, hdraft2⟩ := ih (i + 1) st1 st' h1 hok
      refine ⟨h2, t :: new, ?_, ?_⟩
      · rw [hids2, hids1]
        simp [List.append_assoc]
      · unfold draftOpaqueB
        rw [List.zip_cons_cons, List.all_cons, Bool.and_eq_true]
        refine ⟨?_, hdraft2⟩
        by_cases hk : t.kind = SegKind.draft_file
        · have ht := hdraft1 hk
          simp [ht]
        · simp [hk]

/-! ## Claim C1 -/

/-- The root index object of scenario A as the client resolves it. -/
def rA100 : RIndex := ⟨.mk "100" "Sample Index" [.mk "101" "Sub Index" []], []⟩

def fdFile : FileDesc := ⟨"file.txt", none, "1", "https://repo.example/objects/1000/file.txt"⟩

/-- An empty resolver state. -/
def st0 : ResState := ⟨[], none, none, none, []⟩

/-- A resolver state already inside an item. -/
def stWithItem : ResState := ⟨[], none, some item1000, none, []⟩

/-- A resolver state already past an item file. -/
def stWithFile : ResState := ⟨[], none, some item1000, some fdFile, []⟩

def rA101 : RIndex :=
  ⟨.mk "101" "Sub Index" [], [.mk "100" "Sample Index" [.mk "101" "Sub Index" []]]⟩

/-- The resolver state returned for `/Sample Item/file.txt` in scenario A. -/
def stItemFile : ResState :=
  ⟨[⟨.root, "", ""⟩, ⟨.item, "1000", "Sample Item"⟩, ⟨.item_file, "file.txt", "file.txt"⟩],
   some rA100, some item1000, some fdFile, [.getTree, .search "100"]⟩

/-- C1: every successfully resolved path satisfies the structural invariant
(at most one item id, no index id after an item id, an item-file id only
last) with draft ids built opaquely from their literal segments; a reserved
marker consumed under an item, or any segment consumed past an item file,
fails with a structural 400 error; and a segment classified as draft_file
adds no remote call beyond the current-or-default index resolution and item
probe (both functions of the state alone, not of the segment) and leaves the
item and file registers unchanged. -/
theorem c1_resolution_invariants :
    (∀ (repo : Repo) (rootId path : String) (st : ResState),
      validate_path repo rootId path = .ok st →
      structuralInvariant st.ids = true ∧ draftOpaqueB (splitParts path) st.ids = true) ∧
    (∀ (repo : Repo) (rootId : String) (i : Nat) (part : String) (st : ResState),
      st.item.isSome = true → pyStartsWith part ITEM_MARKER = true →
      ∃ msg, resolvePart repo rootId i part st = .error (.metadataError msg 400)) ∧
    (∀ (repo : Repo) (rootId : String) (i : Nat) (part : String) (st : ResState),
      st.file.isSome = true → pyStartsWith part ITEM_MARKER = false →
      resolvePart repo rootId i part st =
        .error (.metadataError "Invalid path: No path segment below the item file" 400)) ∧
    (∀ (repo : Repo) (rootId : String) (i : Nat) (part : String) (st st' : ResState)
      (ix : RIndex) (probe : List RemoteCall) (t : SegId),
      st.item = none → st.file = none → pyStartsWith part ITEM_MARKER = false →
      effIndex repo rootId st = .ok (ix, probe) →
      resolvePart repo rootId i part st = .ok st' →
      st'.ids = st.ids ++ [t] → t.kind = SegKind.draft_file →
      t = ⟨SegKind.draft_file, part, part⟩ ∧
      st'.log = st.log ++ probe ++ [.search ix.identifier] ∧
      st'.index = some ix ∧ st'.item = none ∧ st'.file = none) := by
  refine ⟨?_, ?_, ?_, ?_⟩
  · intro repo rootId path st hok
    unfold validate_path at hok
    obtain ⟨hInv, new, hids, hdr⟩ := validatePathAux_inv (splitParts path) 0 _ st Inv.init hok
    have hnew : st.ids = new := by simpa using hids
    constructor
    · unfold structuralInvariant
      rw [Bool.and_eq_true, Bool.and_eq_true]
      exact ⟨⟨decide_eq_true hInv.countLe, hInv.noIdxAfter⟩, hInv.ifLast⟩
    · rw [hnew]
      exact hdr
  · intro repo rootId i part st hitem hmk
    unfold resolvePart
    rw [if_pos hmk]
    cases hpid : parse_item_file_id part with
    | none => exact ⟨_, by dsimp only; rw [if_pos hitem]⟩
    | some item_id => exact ⟨_, by dsimp only; rw [if_pos hitem]⟩
  · intro repo rootId i part st hfile hmk
    unfold resolvePart
    rw [if_neg (by simp [hmk]), if_pos hfile]
  · intro repo rootId i part st st' ix probe t hitem hfile hmkF heff hok hids hkind
    by_cases hroot : part = "" ∧ i = 0
    · exfalso
      unfold resolvePart at hok
      rw [if_neg (by simp [hmkF])] at hok
      simp only [hfile, Option.isSome_none, Bool.false_eq_true, if_false] at hok
      rw [if_pos hroot] at hok
      simp only [Except.ok.injEq] at hok
      subst hok
      have h2 : st.ids ++ [(⟨SegKind.root, part, part⟩ : SegId)] = st.ids ++ [t] := hids
      have h3 := List.append_cancel_left h2
      simp only [List.cons.injEq, and_true] at h3
      rw [← h3] at hkind
      exact nomatch hkind
    · rw [resolvePart_ordinary repo rootId i part st hitem hfile hmkF hroot, heff] at hok
      dsimp only at hok
      cases hch : ix.children.filter (fun c => c.title = part) with
      | cons c cs =>
        exfalso
        simp only [hch, Except.ok.injEq] at hok
        subst hok
        have h2 : st.ids ++ [(⟨SegKind.index, c.identifier, c.title⟩ : SegId)] =
            st.ids ++ [t] := hids
        have h3 := List.append_cancel_left h2
        simp only [List.cons.injEq, and_true] at h3
        rw [← h3] at hkind
        exact nomatch hkind
      | nil =>
        simp only [hch] at hok
        cases hgi : getItems repo ix with
        | error e => simp only [hgi] at hok; simp at hok
        | ok items =>
          simp only [hgi] at hok
          cases hft : filterByTitle items part with
          | error e => simp only [hft] at hok; simp at hok
          | ok cands =>
            simp only [hft] at hok
            cases cands with
            | cons c cs =>
              exfalso
              cases hpt : Item.primary_title c with
              | error e => simp only [hpt] at hok; simp at hok
              | ok pt =>
                simp only [hpt, Except.ok.injEq] at hok
                subst hok
                have h2 : st.ids ++ [(⟨SegKind.item, Item.identifier c, pt⟩ : SegId)] =
                    st.ids ++ [t] := hids
                have h3 := List.append_cancel_left h2
                simp only [List.cons.injEq, and_true] at h3
                rw [← h3] at hkind
                exact nomatch hkind
            | nil =>
              simp only [Except.ok.injEq] at hok
              subst hok
              have h2 : st.ids ++ [(⟨SegKind.draft_file, part, part⟩ : SegId)] =
                  st.ids ++ [t] := hids
              have h3 := List.append_cancel_left h2
              simp only [List.cons.injEq, and_true] at h3
              exact ⟨h3.symm, rfl, rfl, hitem, hfile⟩

/-- Witness for C1 at scenario A and at concrete resolver states. -/
theorem c1_witness :
    (structuralInvariant stItemFile.ids = true ∧
      draftOpaqueB (splitParts "/Sample Item/file.txt") stItemFile.ids = true) ∧
    (∃ msg, resolvePart repoA "100" 1 "weko:101" stWithItem =
      .error (.metadataError msg 400)) ∧
    resolvePart repoA "100" 2 "x" stWithFile =
      .error (.metadataError "Invalid path: No path segment below the item file" 400) ∧
    ((⟨SegKind.draft_file, "birdie.jpg", "birdie.jpg"⟩ : SegId) =
        ⟨SegKind.draft_file, "birdie.jpg", "birdie.jpg"⟩ ∧
      (⟨[⟨.draft_file, "birdie.jpg", "birdie.jpg"⟩], some idxSample, none, none,
          [RemoteCall.getTree, RemoteCall.search "100"]⟩ : ResState).log =
        [] ++ [RemoteCall.getTree] ++ [RemoteCall.search "100"] ∧
      (⟨[⟨.draft_file, "birdie.jpg", "birdie.jpg"⟩], some idxSample, none, none,
          [RemoteCall.getTree, RemoteCall.search "100"]⟩ : ResState).index = some idxSample ∧
      (⟨[⟨.draft_file, "birdie.jpg", "birdie.jpg"⟩], some idxSample, none, none,
          [RemoteCall.getTree, RemoteCall.search "100"]⟩ : ResState).item = none ∧
      (⟨[⟨.draft_file, "birdie.jpg", "birdie.jpg"⟩], some idxSample, none, none,
          [RemoteCall.getTree, RemoteCall.search "100"]⟩ : ResState).file = none) :=
  ⟨c1_resolution_invariants.1 repoA "100" "/Sample Item/file.txt" stItemFile rfl,
   c1_resolution_invariants.2.1 repoA "100" 1 "weko:101" stWithItem rfl rfl,
   c1_resolution_invariants.2.2.1 repoA "100" 2 "x" stWithFile rfl rfl,
   c1_resolution_invariants.2.2.2 repoD "100" 1 "birdie.jpg" st0
     ⟨[⟨.draft_file, "birdie.jpg", "birdie.jpg"⟩], some idxSample, none, none,
      [RemoteCall.getTree, RemoteCall.search "100"]⟩
     idxSample [RemoteCall.getTree] ⟨.draft_file, "birdie.jpg", "birdie.jpg"⟩
     rfl rfl rfl rfl rfl rfl rfl⟩

/-! ## Claim C3 -/

/-- C3: an ordinary segment consumed in the NONE or IN_INDEX state is
classified in exactly this order against the current-or-default index `ix`
(resolved with the probe calls `probe`, a function of the state alone):
first as a child index matched by title; failing that, as an item matched by
primary title (one item search); failing both, as an opaque draft_file with
no further lookup, the item and file registers unchanged and the effective
classification index still `ix`. -/
theorem c3_ordinary_order (repo : Repo) (rootId : String) (i : Nat) (part : String)
    (st : ResState) (ix : RIndex) (probe : List RemoteCall)
    (hitem : st.item = none) (hfile : st.file = none)
    (hmk : pyStartsWith part ITEM_MARKER = false)
    (hroot : ¬(part = "" ∧ i = 0))
    (heff : effIndex repo rootId st = .ok (ix, probe)) :
    (∀ c cs, ix.children.filter (fun x => x.title = part) = c :: cs →
      resolvePart repo rootId i part st =
        .ok { st with
              ids := st.ids ++ [⟨.index, c.identifier, c.title⟩],
              index := some c, log := st.log ++ probe }) ∧
    (∀ items it its, ix.children.filter (fun x => x.title = part) = [] →
      getItems repo ix = .ok items →
      filterByTitle items part = .ok (it :: its) →
      resolvePart repo rootId i part st =
        .ok { st with
              ids := st.ids ++ [⟨.item, Item.identifier it, part⟩],
              index := some ix, item := some it,
              log := st.log ++ probe ++ [.search ix.identifier] }) ∧
    (∀ items, ix.children.filter (fun x => x.title = part) = [] →
      getItems repo ix = .ok items →
      filterByTitle items part = .ok [] →
      resolvePart repo rootId i part st =
        .ok { st with
              ids := st.ids ++ [⟨.draft_file, part, part⟩],
              index := some ix,
              log := st.log ++ probe ++ [.search ix.identifier] }) := by
  have hord := resolvePart_ordinary repo rootId i part st hitem hfile hmk hroot
  refine ⟨?_, ?_, ?_⟩
  · intro c cs hch
    rw [hord, heff]
    dsimp only
    simp only [hch]
  · intro items it its hch hgi hft
    have hpt := filterByTitle_head_title hft
    rw [hord, heff]
    dsimp only
    simp only [hch, hgi, hft, hpt]
  · intro items hch hgi hft
    rw [hord, heff]
    dsimp only
    simp only [hch, hgi, hft]

/-- Witness for C3 at scenario A: a child-index match, an item match and a
draft classification from the initial state. -/
theorem c3_witness :
    resolvePart repoA "100" 1 "Sub Index" st0 =
      .ok ⟨[⟨.index, "101", "Sub Index"⟩], some rA101, none, none, [.getTree]⟩ ∧
    resolvePart repoA "100" 1 "Sample Item" st0 =
      .ok ⟨[⟨.item, "1000", "Sample Item"⟩], some rA100, some item1000, none,
           [.getTree, .search "100"]⟩ ∧
    resolvePart repoA "100" 1 "birdie.jpg" st0 =
      .ok ⟨[⟨.draft_file, "birdie.jpg", "birdie.jpg"⟩], some rA100, none, none,
           [.getTree, .search "100"]⟩ :=
  ⟨(c3_ordinary_order repoA "100" 1 "Sub Index" st0 rA100 [.getTree] rfl rfl rfl
      (by simp) rfl).1 rA101 [] rfl,
   (c3_ordinary_order repoA "100" 1 "Sample Item" st0 rA100 [.getTree] rfl rfl rfl
      (by simp) rfl).2.1 [item1000] item1000 [] rfl rfl rfl,
   (c3_ordinary_order repoA "100" 1 "birdie.jpg" st0 rA100 [.getTree] rfl rfl rfl
      (by simp) rfl).2.2 [item1000] rfl rfl rfl⟩

/-! ## Helper machinery for the download claim -/

/-- The argument `_get_last_index_for` passes to `get_index_by_id`. -/
def lastIndexArg (rootId : String) (path : WEKOPath) : String :=
  match (path.parts.filter (fun p => p.is_index)).getLast? with
  | some p => pyStrOpt p.identifier_value
  | none => rootId

theorem _get_last_index_forM_eq (rootId : String) (path : WEKOPath) :
    _get_last_index_forM rootId path = getIndexByIdM (lastIndexArg rootId path) := by
  unfold _get_last_index_forM lastIndexArg
  cases h : (path.parts.filter (fun p => p.is_index)).getLast? <;> simp

/-- No object-URL fetch appears in the log. -/
def httpFree (log : List Call) : Bool :=
  log.all (fun c =>
    match c with
    | .http _ _ _ => false
    | _ => true)

theorem httpFree_append (l1 l2 : List Call) :
    httpFree (l1 ++ l2) = (httpFree l1 && httpFree l2) := List.all_append

/-- An operation whose every run has an http-free log. -/
def HF {α : Type} (x : M α) : Prop :=
  ∀ w, httpFree (x w).2.2 = true

theorem HF_bind {α β : Type} {x : M α} {f : α → M β} (hx : HF x) (hf : ∀ a, HF (f a)) :
    HF (x >>= f) := by
  intro w
  rw [bind_apply]
  rcases hxw : x w with ⟨r, w1, l1⟩
  have h1 : httpFree l1 = true := by
    have := hx w
    rw [hxw] at this
    exact this
  cases r with
  | error e => exact h1
  | ok a =>
    rcases hfw : f a w1 with ⟨r2, w2, l2⟩
    have h2 : httpFree l2 = true := by
      have := hf a w1
      rw [hfw] at this
      exact this
    simp only [hfw]
    rw [httpFree_append, h1, h2]
    rfl

theorem HF_pure {α : Type} (a : α) : HF (pure a : M α) := fun _ => rfl

theorem HF_throwM {α : Type} (e : Err) : HF (throwM e : M α) := fun _ => rfl

theorem HF_liftE {α : Type} (r : Except Err α) : HF (liftE r) := fun _ => rfl

theorem HF_deleg_validate_path (p : String) : HF (deleg_validate_path p) := fun _ => rfl

theorem HF_deleg_metadata (p : String) : HF (deleg_metadata p) := by
  intro w
  unfold deleg_metadata
  cases h : w.fs.entries.filter (fun e => e.materialized_path = p && e.kind = "file") <;> simp [h, httpFree]

theorem HF_deleg_create_folder (p : String) : HF (deleg_create_folder p) := fun _ => rfl

theorem HF_deleg_download (p : String) (range : Option (Nat × Nat)) :
    HF (deleg_download p range) := fun _ => rfl

theorem HF_getIndexByIdM (id : String) : HF (getIndexByIdM id) := fun _ => rfl

theorem HF_get_draft_folder (c : Bool) : HF (get_draft_folder c) := by
  unfold get_draft_folder
  apply HF_bind (HF_deleg_validate_path _)
  intro p
  apply HF_bind (HF_deleg_metadata _)
  intro md
  apply HF_bind (HF_liftE _)
  intro entries
  split
  · exact HF_pure _
  · split
    · exact HF_pure _
    · apply HF_bind (HF_deleg_validate_path _)
      intro p2
      apply HF_bind (HF_deleg_create_folder _)
      intro f
      exact HF_pure _

theorem HF_get_index_folder (index_id : String) (c : Bool) : HF (get_index_folder index_id c) := by
  unfold get_index_folder
  apply HF_bind (HF_get_draft_folder _)
  intro d
  cases d with
  | none => exact HF_pure _
  | some draft_folder =>
    apply HF_bind (HF_deleg_validate_path _)
    intro p
    apply HF_bind (HF_deleg_metadata _)
    intro md
    apply HF_bind (HF_liftE _)
    intro entries
    split
    · exact HF_pure _
    · split
      · exact HF_pure _
      · apply HF_bind (HF_deleg_validate_path _)
        intro p2
        apply HF_bind (HF_deleg_create_folder _)
        intro f
        exact HF_pure _

theorem HF_get_draft_file_metadataF (index_folder : DEntry) (fuel : Nat) (dp : WEKOPath) :
    HF (get_draft_file_metadataF index_folder fuel dp) := by
  induction fuel generalizing dp with
  | zero => exact HF_throwM _
  | succ fuel ih =>
    unfold get_draft_file_metadataF
    cases h : dp.split_path.2 with
    | none =>
      apply HF_bind (HF_deleg_validate_path _)
      intro p
      exact HF_deleg_metadata _
    | some last_part =>
      apply HF_bind (ih _)
      intro md
      split
      · split
        · exact HF_throwM _
        · exact HF_throwM _
      · split
        · exact HF_throwM _
        · split
          · exact HF_pure _
          · apply HF_bind (HF_deleg_validate_path _)
            intro p
            exact HF_deleg_metadata _

theorem HF_get_draft_file_metadata (index_folder : DEntry) (dp : WEKOPath) :
    HF (get_draft_file_metadata index_folder dp) :=
  HF_get_draft_file_metadataF index_folder _ dp

/-! ## Claim C4 -/

/-- C4: for every resolved path whose last segment is not of draft-file
kind, each of upload, create_folder and delete fails with a structural
`MetadataError` as its very first step: the result is the error, the world
(delegate store included) is untouched, and the call log is empty, so no
delegate call was issued. The operations proceed only on draft-file-kind
paths. -/
theorem c4_writes_fail_before_delegate (rootId : String) (path : WEKOPath) (w : World)
    (h : path.is_draft_file = false) :
    weko_upload rootId path w =
      (.error (.metadataError "Cannot upload files to the item" 404), w, []) ∧
    weko_create_folder rootId path w =
      (.error (.metadataError "Cannot create folders to the item" 400), w, []) ∧
    weko_delete rootId path w =
      (.error (.metadataError "Unsupported operation" 400), w, []) := by
  refine ⟨?_, ?_, ?_⟩ <;>
    simp [weko_upload, weko_create_folder, weko_delete, h, throwM]

/-- Witness for C4 at the item-file path of scenario A. -/
theorem c4_witness :
    weko_upload "100" pathItemFile worldA =
      (.error (.metadataError "Cannot upload files to the item" 404), worldA, []) ∧
    weko_create_folder "100" pathItemFile worldA =
      (.error (.metadataError "Cannot create folders to the item" 400), worldA, []) ∧
    weko_delete "100" pathItemFile worldA =
      (.error (.metadataError "Unsupported operation" 400), worldA, []) :=
  c4_writes_fail_before_delegate "100" pathItemFile worldA (by decide)

/-! ## Claim C7 -/

/-- C7: for every draft projection, when the delegate entry's materialized
path does not start with the index folder's materialized path, the
relative-path computation and hence `path` and `materialized_path` fail at
once with the invariant-violation `ValueError` (no recovery); when the
entry's materialized path is the index folder's materialized path followed
by a remainder, the relative path is exactly that remainder. -/
theorem c7_draft_relative_path (m : BaseWEKODraftMetadataS) :
    (pyStartsWith m.raw.materialized_path m.index_folder.materialized_path = false →
      _relative_path m = .error (.valueError "Unexpected path") ∧
      draft_path m = .error (.valueError "Unexpected path") ∧
      draft_materialized_path m = .error (.valueError "Unexpected path")) ∧
    (∀ rest, m.raw.materialized_path = m.index_folder.materialized_path ++ rest →
      _relative_path m = .ok rest) := by
  constructor
  · intro h
    have he : _relative_path m = .error (.valueError "Unexpected path") := by
      unfold _relative_path
      simp only []
      rw [h]
      simp
    exact ⟨he, by simp [draft_path, he, Except.map], by simp [draft_materialized_path, he, Except.map]⟩
  · intro rest h
    exact _relative_path_of_append m rest h

/-- Witness for C7: a matching and a non-matching entry under the index
folder `/.weko/100/`. -/
theorem c7_witness :
    _relative_path ⟨"100", entDraftBad, entIndexFolder, idxSample⟩ =
      .error (.valueError "Unexpected path") ∧
    _relative_path ⟨"100", entDraftGood, entIndexFolder, idxSample⟩ = .ok "a.txt" :=
  ⟨((c7_draft_relative_path ⟨"100", entDraftBad, entIndexFolder, idxSample⟩).1 (by decide)).1,
   (c7_draft_relative_path ⟨"100", entDraftGood, entIndexFolder, idxSample⟩).2 "a.txt" (by decide)⟩

/-! ## Claim C8 -/

/-- C8: an item whose metadata map has no entry tagged as a file attribute
makes `Item.files` raise (never an empty list); when such entries exist, the
first one's value array is returned in order. -/
theorem c8_files_requires_file_tag (it : ItemJson) :
    ((Item._metadata it).filter Item.isFileEntry = [] →
      Item.files it = .error (.pyError "IndexError: no file attribute entry")) ∧
    (∀ k attrType mlt rest,
      (Item._metadata it).filter Item.isFileEntry = (k, .ventry attrType mlt) :: rest →
      Item.files it = .ok mlt) := by
  constructor
  · intro h
    unfold Item.files
    rw [h]
  · intro k attrType mlt rest h
    unfold Item.files
    rw [h]

/-- Witness for C8: an item without the file tag errors, an item with the
tag returns its file list. -/
theorem c8_witness :
    Item.files itemNoFiles = .error (.pyError "IndexError: no file attribute entry") ∧
    Item.files itemWithFiles = .ok [fdescOne] :=
  ⟨(c8_files_requires_file_tag itemNoFiles).1 (by decide),
   (c8_files_requires_file_tag itemWithFiles).2 "item_files" (some "file") [fdescOne] []
     (by decide)⟩

/-! ## Claim C9 -/

/-- C9 as stated is false: for the draft entry `/.weko/100/a.txt` under the
index folder `/.weko/100/`, the relative path is `a.txt`, but re-deriving
from an entry whose materialized path equals that already-stripped relative
path fails the prefix match instead of succeeding. -/
theorem c9_counterexample :
    _relative_path ⟨"100", entDraftGood, entIndexFolder, idxSample⟩ = .ok "a.txt" ∧
    _relative_path ⟨"100", entRestripped, entIndexFolder, idxSample⟩ =
      .error (.valueError "Unexpected path") := by
  constructor <;> rfl

/-- C9 amended: stripping is a retraction rather than idempotent on the bare
relative path: re-deriving a draft entry's relative path from its relative
path re-prefixed with the index folder's materialized path succeeds (the
prefix match holds) and returns the same relative path unchanged. -/
theorem c9_amended_restrip (m : BaseWEKODraftMetadataS) (r : String)
    (hm : _relative_path m = .ok r) (e2 : DEntry)
    (h2 : e2.materialized_path = m.index_folder.materialized_path ++ r) :
    _relative_path ⟨m.root_index_id, e2, m.index_folder, m.index⟩ = .ok r := by
  have _unused := hm
  exact _relative_path_of_append ⟨m.root_index_id, e2, m.index_folder, m.index⟩ r h2

/-- Witness for C9 (amended): the relative path of `/.weko/100/a.txt` is
`a.txt`; re-prefixing and stripping again returns `a.txt`. -/
theorem c9_witness :
    _relative_path ⟨"100", entDraftGood, entIndexFolder, idxSample⟩ = .ok "a.txt" :=
  c9_amended_restrip ⟨"100", entDraftGood, entIndexFolder, idxSample⟩ "a.txt" (by rfl)
    entDraftGood (by decide)

/-! ## Claim C5 -/

/-- The delegate create_folder calls of a log, in order. -/
def createFolderArgs (log : List Call) : List String :=
  log.filterMap (fun c =>
    match c with
    | .deleg (.createFolder p) => some p
    | _ => none)

def entWekoFolder : DEntry := ⟨".weko", "folder", "/.weko/", "/.weko/"⟩

def entBirdie : DEntry :=
  ⟨"birdie.jpg", "file", "/.weko/100/birdie.jpg", "/.weko/100/birdie.jpg"⟩

/-- C5 as stated is false for delete: deleting the draft path `/birdie.jpg`
with no pre-existing skeleton issues no delegate create_folder call at all
and fails with a not-found error instead of creating the skeleton. -/
theorem c5_counterexample :
    (weko_delete "100" pathBirdie worldD).1 = .error (.metadataError "Unexpected path" 404) ∧
    createFolderArgs (weko_delete "100" pathBirdie worldD).2.2 = [] := by
  constructor <;> rfl

/-- C5 amended: upload and create_folder (but not delete) lazily create the
two-level skeleton: with no pre-existing skeleton, uploading to
`/birdie.jpg` issues exactly the delegate calls shown, the two create_folder
calls `/.weko/` then `/.weko/100/` coming before the upload call; creating
`/newfolder/` likewise builds the skeleton before the forwarded
create_folder; delete with no skeleton fails with not-found and issues no
create_folder call. -/
theorem c5_amended_skeleton_on_write :
    weko_upload "100" pathBirdie worldD =
      (.ok (⟨false, ⟨"100", entBirdie, entIndexFolder, idxSample⟩⟩, true),
       ⟨repoD, ⟨[entWekoFolder, entIndexFolder, entBirdie]⟩⟩,
       [.remote .getTree,
        .deleg (.validatePath "/"), .deleg (.metadata "/"),
        .deleg (.validatePath "/.weko/"), .deleg (.createFolder "/.weko/"),
        .deleg (.validatePath "/.weko/"), .deleg (.metadata "/.weko/"),
        .deleg (.validatePath "/.weko/100/"), .deleg (.createFolder "/.weko/100/"),
        .deleg (.validatePath "/.weko/100/birdie.jpg"),
        .deleg (.upload "/.weko/100/birdie.jpg")]) ∧
    createFolderArgs (weko_upload "100" pathBirdie worldD).2.2 =
      ["/.weko/", "/.weko/100/"] ∧
    createFolderArgs (weko_create_folder "100" pathNewFolder worldD).2.2 =
      ["/.weko/", "/.weko/100/", "/.weko/100/newfolder"] ∧
    (weko_delete "100" pathBirdie worldD).1 = .error (.metadataError "Unexpected path" 404) ∧
    createFolderArgs (weko_delete "100" pathBirdie worldD).2.2 = [] := by
  refine ⟨?_, ?_, ?_, ?_, ?_⟩ <;> rfl

/-! ## Claim C6 -/

/-- C6: download routes by the resolved path kind. An item-file path streams
bytes by a GET against the remote file's download_url, accepting statuses
200 and 206 and forwarding the byte range, with no delegate call at all (in
particular no delegate download); a draft-file path translates to the
delegate's native location and delegates the byte stream, with no object-URL
fetch anywhere in its log; any other path kind fails with a structural
error. -/
theorem c6_download_routing (rootId : String) (path : WEKOPath)
    (range : Option (Nat × Nat)) (w : World) :
    (∀ ix ip it lp fs f rest,
      path.is_draft_file = false →
      path.is_item_file = true →
      getIndexById w.repo (lastIndexArg rootId path) = .ok ix →
      (path.parts.filter (fun p => p.is_item)).getLast? = some ip →
      getItemById w.repo (pyStrOpt ip.identifier_value) = .ok it →
      path.parts.getLast? = some lp →
      Item.files it = .ok fs →
      fs.filter (fun fd =>
        match lp.identifier_value with
        | some v => fd.filename = v
        | none => false) = f :: rest →
      weko_download rootId path range w =
        (.ok (.remoteStream (Item.download_url f)), w,
         [.remote .getTree, .remote (.record (pyStrOpt ip.identifier_value)),
          .http (Item.download_url f) range [200, 206]])) ∧
    (∀ ix,
      path.is_draft_file = false →
      path.is_item_file = false →
      getIndexById w.repo (lastIndexArg rootId path) = .ok ix →
      weko_download rootId path range w =
        (.error (.metadataError "Illegal parts" 400), w, [.remote .getTree])) ∧
    (∀ ix index_folder last_path fm w1 w2 gifLog gdLog,
      path.is_draft_file = true →
      getIndexById w.repo (lastIndexArg rootId path) = .ok ix →
      get_index_folder ix.identifier false w = (.ok (some index_folder), w1, gifLog) →
      path.split_draft_file_path.2 = some last_path →
      get_draft_file_metadata index_folder last_path w1 = (.ok (.single fm), w2, gdLog) →
      weko_download rootId path range w =
        (.ok (.delegated fm.path), w2,
         [.remote .getTree] ++ gifLog ++ gdLog ++
           [.deleg (.validatePath fm.path), .deleg (.download fm.path range)]) ∧
      httpFree ([Call.remote .getTree] ++ gifLog ++ gdLog ++
        [.deleg (.validatePath fm.path), .deleg (.download fm.path range)]) = true) := by
  refine ⟨?_, ?_, ?_⟩
  · intro ix ip it lp fs f rest hd hf hI hit hrec hlast hfs hmatch
    simp only [weko_download, _get_last_index_forM_eq, getIndexByIdM, bind_apply, hI, hd, hf,
      Bool.not_false, Bool.not_true, Bool.false_eq_true, Bool.true_eq_false, if_false, if_true,
      ite_true, ite_false, _get_last_item_forM, hit,
      getItemByIdM, hrec, hlast, liftE, hfs, hmatch, http_get, throwM,
      List.nil_append, List.append_nil, List.cons_append]
  · intro ix hd hf hI
    simp only [weko_download, _get_last_index_forM_eq, getIndexByIdM, bind_apply, hI, hd, hf,
      Bool.not_false, Bool.not_true, Bool.false_eq_true, Bool.true_eq_false, if_false, if_true,
      ite_true, ite_false, throwM,
      List.nil_append, List.append_nil, List.cons_append]
  · intro ix index_folder last_path fm w1 w2 gifLog gdLog hd hI hgif hsplit hgd
    constructor
    · simp only [weko_download, _get_last_index_forM_eq, getIndexByIdM, bind_apply, hI, hd,
        if_true, hgif, hsplit, hgd, liftE, DMeta.singleEntry, deleg_validate_path,
        deleg_download, List.nil_append, List.append_nil, List.cons_append, List.append_assoc]
    · have h1 : httpFree gifLog = true := by
        have := HF_get_index_folder ix.identifier false w
        rw [hgif] at this
        exact this
      have h2 : httpFree gdLog = true := by
        have := HF_get_draft_file_metadata index_folder last_path w1
        rw [hgd] at this
        exact this
      have h3 : httpFree [Call.remote .getTree] = true := rfl
      have h4 : httpFree [Call.deleg (.validatePath fm.path),
        Call.deleg (.download fm.path range)] = true := rfl
      simp only [httpFree_append, h1, h2, h3, h4, Bool.and_self]

/-- Witness for C6: in scenario A, downloading the item file
`/Sample Item/file.txt` fetches the object URL and issues no delegate call;
downloading the root path fails; in the draft world, downloading
`/birdie.jpg` delegates the stream with no object-URL fetch. -/
theorem c6_witness :
    weko_download "100" pathItemFile none worldA =
      (.ok (.remoteStream "https://repo.example/objects/1000/file.txt"), worldA,
       [.remote .getTree, .remote (.record "1000"),
        .http "https://repo.example/objects/1000/file.txt" none [200, 206]]) ∧
    weko_download "100" pathRoot none worldA =
      (.error (.metadataError "Illegal parts" 400), worldA, [.remote .getTree]) ∧
    (weko_download "100" pathBirdie none worldB =
      (.ok (.delegated "/.weko/100/birdie.jpg"), worldB,
       [.remote .getTree] ++
         [.deleg (.validatePath "/"), .deleg (.metadata "/"),
          .deleg (.validatePath "/.weko/"), .deleg (.metadata "/.weko/")] ++
         [.deleg (.validatePath "/.weko/100/"), .deleg (.metadata "/.weko/100/")] ++
         [.deleg (.validatePath "/.weko/100/birdie.jpg"),
          .deleg (.download "/.weko/100/birdie.jpg" none)]) ∧
     httpFree ([Call.remote .getTree] ++
         [.deleg (.validatePath "/"), .deleg (.metadata "/"),
          .deleg (.validatePath "/.weko/"), .deleg (.metadata "/.weko/")] ++
         [.deleg (.validatePath "/.weko/100/"), .deleg (.metadata "/.weko/100/")] ++
         [.deleg (.validatePath "/.weko/100/birdie.jpg"),
          .deleg (.download "/.weko/100/birdie.jpg" none)]) = true) :=
  ⟨(c6_download_routing "100" pathItemFile none worldA).1 rA100
      ⟨"Sample Item", some ⟨.item, "1000", "Sample Item"⟩⟩ item1000
      ⟨"file.txt", some ⟨.item_file, "file.txt", "file.txt"⟩⟩
      [fdFile] fdFile [] rfl rfl rfl rfl rfl rfl rfl rfl,
   (c6_download_routing "100" pathRoot none worldA).2.1 rA100 rfl rfl rfl,
   (c6_download_routing "100" pathBirdie none worldB).2.2 rA100 entIndexFolder pathBirdie
      entBirdie worldB worldB
      [.deleg (.validatePath "/"), .deleg (.metadata "/"),
       .deleg (.validatePath "/.weko/"), .deleg (.metadata "/.weko/")]
      [.deleg (.validatePath "/.weko/100/"), .deleg (.metadata "/.weko/100/")]
      rfl rfl rfl rfl rfl⟩

/-! ## Claim C10 -/

/-- C10: a path part constructed without a resolved identifier triple is
classified as a draft file: `is_draft_file` answers true while `is_index`,
`is_item` and `is_item_file` answer false; and a `WEKOPath` whose last part
carries no id answers `is_draft_file = true`. -/
theorem c10_partless_id_is_draft (v : String) (p : WEKOPath) (q : WEKOPathPart)
    (hq : p.parts.getLast? = some q) (hid : q._id = none) :
    (WEKOPathPart.mk v none).is_draft_file = true ∧
    (WEKOPathPart.mk v none).is_index = false ∧
    (WEKOPathPart.mk v none).is_item = false ∧
    (WEKOPathPart.mk v none).is_item_file = false ∧
    p.is_draft_file = true := by
  refine ⟨rfl, rfl, rfl, rfl, ?_⟩
  simp [WEKOPath.is_draft_file, hq, WEKOPathPart.is_draft_file, hid]

/-- Witness for C10 at a one-part path holding an unresolved part. -/
theorem c10_witness :
    (WEKOPathPart.mk "x" none).is_draft_file = true ∧
    (WEKOPathPart.mk "x" none).is_index = false ∧
    (WEKOPathPart.mk "x" none).is_item = false ∧
    (WEKOPathPart.mk "x" none).is_item_file = false ∧
    (WEKOPath.mk [WEKOPathPart.mk "x" none] false).is_draft_file = true :=
  c10_partless_id_is_draft "x" (WEKOPath.mk [WEKOPathPart.mk "x" none] false)
    (WEKOPathPart.mk "x" none) rfl rfl

/-! ## C2: the metadata/resolution round trip

The round trip needs the display names on the way to be resolvable: each
name non-empty, slash-free and not carrying the reserved marker, and the
projected node the first title match at its step. `chainOK` pins the chain
the resolver walks; `goodName` collects the conditions on one display
name. -/

/-- A display name that survives the split/join round trip and is not
captured by an earlier classification branch. -/
def goodName (s : String) : Prop :=
  s.data ≠ [] ∧ '/' ∉ s.data ∧ pyStartsWith s ITEM_MARKER = false

/-- The resolver, walking down from `c`, picks exactly the chain's nodes:
each node is the first child of the previous one carrying its title. -/
def chainOK (c : RIndex) : List RIndex → Prop
  | [] => True
  | t :: rest => (c.children.filter (fun x => RIndex.title x = t.title)).head? = some t ∧
      chainOK t rest

theorem map_mk_data (L : List String) :
    (L.map String.data).map (fun cs => String.mk cs) = L := by
  induction L with
  | nil => rfl
  | cons s t ih => simp only [List.map_cons, ih]

/-- Successful child-index classification of an ordinary segment. -/
theorem resolve_index_step {repo : Repo} {rootId : String} {i : Nat} {part : String}
    {st : ResState} {c t : RIndex} {ext : List RemoteCall}
    (heff : effIndex repo rootId st = .ok (c, ext))
    (hitem : st.item = none) (hfile : st.file = none)
    (hmk : pyStartsWith part ITEM_MARKER = false)
    (hroot : ¬(part = "" ∧ i = 0))
    (hhead : (c.children.filter (fun x => RIndex.title x = part)).head? = some t) :
    resolvePart repo rootId i part st =
      .ok { st with
            ids := st.ids ++ [⟨SegKind.index, t.identifier, t.title⟩],
            index := some t, log := st.log ++ ext } := by
  cases hf : c.children.filter (fun x => RIndex.title x = part) with
  | nil => rw [hf] at hhead; exact absurd hhead (by simp)
  | cons x xs =>
    rw [hf] at hhead
    have hx : x = t := by simpa using hhead
    subst hx
    rw [resolvePart_ordinary repo rootId i part st hitem hfile hmk hroot]
    simp only [heff, hf]

/-- Successful item classification of an ordinary segment: no child index
carries the title, the scoped search returns the item first. -/
theorem resolve_item_step {repo : Repo} {rootId : String} {i : Nat} {part : String}
    {st : ResState} {c : RIndex} {ext : List RemoteCall}
    {items its : List ItemJson} {it : ItemJson} {pt : String}
    (heff : effIndex repo rootId st = .ok (c, ext))
    (hitem : st.item = none) (hfile : st.file = none)
    (hmk : pyStartsWith part ITEM_MARKER = false)
    (hroot : ¬(part = "" ∧ i = 0))
    (hnochild : c.children.filter (fun x => RIndex.title x = part) = [])
    (hitems : getItems repo c = .ok items)
    (hfilt : filterByTitle items part = .ok (it :: its))
    (hpt : Item.primary_title it = .ok pt) :
    resolvePart repo rootId i part st =
      .ok { st with
            ids := st.ids ++ [⟨SegKind.item, Item.identifier it, pt⟩],
            index := some c, item := some it,
            log := st.log ++ ext ++ [.search c.identifier] } := by
  rw [resolvePart_ordinary repo rootId i part st hitem hfile hmk hroot]
  simp only [heff, hnochild, hitems, hfilt, hpt]

/-- Successful item-file classification in the item state: the first file of
the item carrying the segment as filename is attached. -/
theorem resolve_file_step {repo : Repo} {rootId : String} {i : Nat} {part : String}
    {st : ResState} {it : ItemJson} {fs : List FileDesc} {f : FileDesc}
    (hitem : st.item = some it) (hfile : st.file = none)
    (hmk : pyStartsWith part ITEM_MARKER = false)
    (hroot : ¬(part = "" ∧ i = 0))
    (hfs : Item.files it = .ok fs)
    (hhead : (fs.filter (fun g => g.filename = part)).head? = some f) :
    resolvePart repo rootId i part st =
      .ok { st with
            ids := st.ids ++ [⟨SegKind.item_file, f.filename, f.filename⟩],
            file := some f } := by
  cases hf : fs.filter (fun g => g.filename = part) with
  | nil => rw [hf] at hhead; exact absurd hhead (by simp)
  | cons x xs =>
    rw [hf] at hhead
    have hx : x = f := by simpa using hhead
    subst hx
    unfold resolvePart
    rw [hmk]
    simp only [Bool.false_eq_true, if_false, hfile, Option.isSome_none, if_neg hroot,
      hitem, hfs, hf]

/-- Walking a `chainOK` chain of good titles from an in-index state appends
exactly the chain's index triples and moves the current index to the chain's
last node, with no further remote call. -/
theorem chain_walk {repo : Repo} {rootId : String} (chain : List RIndex) :
    ∀ (i : Nat) (c : RIndex) (st : ResState),
      (∀ t ∈ chain, goodName (RIndex.title t)) →
      st.index = some c → st.item = none → st.file = none →
      chainOK c chain →
      validatePathAux repo rootId i (chain.map RIndex.title) st =
        .ok { st with
              ids := st.ids ++ chain.map (fun t => ⟨SegKind.index, t.identifier, t.title⟩),
              index := some (chain.getLastD c) } := by
  induction chain with
  | nil =>
    intro i c st _ hidx _ _ _
    simp only [List.map_nil, List.append_nil, List.getLastD_nil]
    rw [← hidx]
    rfl
  | cons t rest ih =>
    intro i c st hgood hidx hitem hfile hok
    obtain ⟨hhead, hok2⟩ := hok
    have heff : effIndex repo rootId st = .ok (c, []) := by
      unfold effIndex; rw [hidx]
    have hg := hgood t (List.mem_cons_self _ _)
    have hroot : ¬(RIndex.title t = "" ∧ i = 0) := fun hq => hg.1 (by rw [hq.1])
    have hstep := resolve_index_step heff hitem hfile hg.2.2 hroot hhead
    rw [List.map_cons]
    show validatePathAux repo rootId i (RIndex.title t :: rest.map RIndex.title) st = _
    unfold validatePathAux
    simp only [hstep]
    have hih := ih (i + 1) t
      { st with
        ids := st.ids ++ [⟨SegKind.index, t.identifier, t.title⟩],
        index := some t, log := st.log ++ [] }
      (fun x hx => hgood x (List.mem_cons_of_mem _ hx)) rfl hitem hfile hok2
    rw [hih, List.getLastD_cons]
    dsimp only
    simp only [List.append_nil, List.append_assoc, List.map_cons, List.singleton_append]

/-- Resolving the root segment then a `chainOK` chain of good titles from
the initial state reaches a state listing the root and index triples, in
the NONE or IN_INDEX state whose effective index is the chain's last node,
with exactly one tree fetch issued overall. -/
theorem reachIndexState {repo : Repo} {rootId : String} {c0 target : RIndex}
    (chain : List RIndex)
    (hc0 : getIndexById repo rootId = .ok c0)
    (hgood : ∀ t ∈ chain, goodName (RIndex.title t))
    (hok : chainOK c0 chain)
    (hlastc : chain.getLastD c0 = target) :
    ∃ st1 ext,
      validatePathAux repo rootId 0 ("" :: chain.map RIndex.title) ⟨[], none, none, none, []⟩ =
        .ok st1 ∧
      st1.ids = ⟨SegKind.root, "", ""⟩ ::
        chain.map (fun t => ⟨SegKind.index, t.identifier, t.title⟩) ∧
      st1.item = none ∧ st1.file = none ∧
      effIndex repo rootId st1 = .ok (target, ext) ∧
      st1.log ++ ext = [RemoteCall.getTree] := by
  cases chain with
  | nil =>
    refine ⟨⟨[⟨SegKind.root, "", ""⟩], none, none, none, []⟩, [RemoteCall.getTree],
      rfl, rfl, rfl, rfl, ?_, rfl⟩
    have hct : c0 = target := hlastc
    unfold effIndex
    rw [hc0, ← hct]
    rfl
  | cons t rest =>
    obtain ⟨hhead, hok2⟩ := hok
    have heff0 : effIndex repo rootId
        (⟨[⟨SegKind.root, "", ""⟩], none, none, none, []⟩ : ResState) =
        .ok (c0, [RemoteCall.getTree]) := by
      unfold effIndex
      rw [hc0]
      rfl
    have hg := hgood t (List.mem_cons_self _ _)
    have hroot1 : ¬(RIndex.title t = "" ∧ (1 : Nat) = 0) := fun hq => Nat.one_ne_zero hq.2
    have hstep := resolve_index_step heff0 rfl rfl hg.2.2 hroot1 hhead
    have hlast2 : rest.getLastD t = target := by
      rw [List.getLastD_cons] at hlastc
      exact hlastc
    refine ⟨⟨([(⟨SegKind.root, "", ""⟩ : SegId)] ++
        [⟨SegKind.index, t.identifier, t.title⟩]) ++
        rest.map (fun x => ⟨SegKind.index, x.identifier, x.title⟩),
        some (rest.getLastD t), none, none,
        ([] : List RemoteCall) ++ [RemoteCall.getTree]⟩, [], ?_, ?_, rfl, rfl, ?_, ?_⟩
    · show validatePathAux repo rootId 0 ("" :: (t :: rest).map RIndex.title)
        ⟨[], none, none, none, []⟩ = _
      rw [show validatePathAux repo rootId 0 ("" :: (t :: rest).map RIndex.title)
            ⟨[], none, none, none, []⟩ =
          validatePathAux repo rootId 1 ((t :: rest).map RIndex.title)
            ⟨[⟨SegKind.root, "", ""⟩], none, none, none, []⟩ from rfl]
      rw [List.map_cons]
      show validatePathAux repo rootId 1 (RIndex.title t :: rest.map RIndex.title) _ = _
      unfold validatePathAux
      simp only [hstep]
      rw [chain_walk rest 2 t
        { ids := [(⟨SegKind.root, "", ""⟩ : SegId)] ++ [⟨SegKind.index, t.identifier, t.title⟩],
          index := some t, item := none, file := none,
          log := ([] : List RemoteCall) ++ [RemoteCall.getTree] }
        (fun x hx => hgood x (List.mem_cons_of_mem _ hx)) rfl rfl rfl hok2]
    · simp
    · unfold effIndex
      dsimp only
      rw [hlast2]
    · rfl

/-- The one-step unfolding of `validatePathAux` on a cons. -/
theorem validatePathAux_cons (repo : Repo) (rootId : String) (i : Nat) (p : String)
    (t : List String) (st : ResState) :
    validatePathAux repo rootId i (p :: t) st =
      match resolvePart repo rootId i p st with
      | .error e => .error e
      | .ok st1 => validatePathAux repo rootId (i + 1) t st1 := rfl

/-- `validatePathAux` over an appended segment list runs the first block,
then the second from the reached state at the shifted position. -/
theorem validatePathAux_append (repo : Repo) (rootId : String) (l1 l2 : List String) :
    ∀ (i : Nat) (st : ResState),
      validatePathAux repo rootId i (l1 ++ l2) st =
        match validatePathAux repo rootId i l1 st with
        | .error e => .error e
        | .ok st2 => validatePathAux repo rootId (i + l1.length) l2 st2 := by
  induction l1 with
  | nil =>
    intro i st
    simp [validatePathAux]
  | cons p t ih =>
    intro i st
    rw [List.cons_append, validatePathAux_cons, validatePathAux_cons]
    cases h : resolvePart repo rootId i p st with
    | error e => simp only [h]
    | ok st1 =>
      simp only [h]
      rw [ih]
      have harith : i + 1 + t.length = i + (p :: t).length := by
        simp only [List.length_cons]
        omega
      simp only [harith]

theorem getLast?_of_getLastD {α : Type} {l : List α} {a b : α}
    (hne : l ≠ []) (h : l.getLastD a = b) : l.getLast? = some b := by
  cases hgl : l.getLast? with
  | none =>
    cases l with
    | nil => exact absurd rfl hne
    | cons x xs => exact absurd hgl (by simp)
  | some x =>
    rw [List.getLastD_eq_getLast?, hgl] at h
    simp only [Option.getD_some] at h
    rw [h]

/-- The non-root form of `_index_to_materialized_path`: a slash-terminated
join of the chain's titles. -/
theorem imp_eq_of_ne {rootId : String} {target : RIndex} {chain : List RIndex}
    (hparts : _index_to_path_parts rootId target = chain)
    (hjne : (joinSlash (chain.map RIndex.title)).data ≠ []) :
    _index_to_materialized_path rootId target = joinSlash (chain.map RIndex.title) ++ "/" := by
  have h1 : _index_to_materialized_path rootId target =
      if (joinSlash ((_index_to_path_parts rootId target).map (fun part => part.title))).data = []
      then joinSlash ((_index_to_path_parts rootId target).map (fun part => part.title))
      else joinSlash ((_index_to_path_parts rootId target).map (fun part => part.title)) ++ "/" :=
    rfl
  rw [h1, hparts, if_neg hjne]

/-- At the configured root the relative materialized path is empty. -/
theorem imp_eq_nil {rootId : String} {target : RIndex}
    (hparts : _index_to_path_parts rootId target = []) :
    _index_to_materialized_path rootId target = "" := by
  have h1 : _index_to_materialized_path rootId target =
      if (joinSlash ((_index_to_path_parts rootId target).map (fun part => part.title))).data = []
      then joinSlash ((_index_to_path_parts rootId target).map (fun part => part.title))
      else joinSlash ((_index_to_path_parts rootId target).map (fun part => part.title)) ++ "/" :=
    rfl
  rw [h1, hparts]
  rfl

/-- The characters of the relative materialized path followed by a suffix
form the slash-join of the chain's titles and the suffix. -/
theorem imp_data_append {rootId : String} {target : RIndex} {chain : List RIndex}
    (hparts : _index_to_path_parts rootId target = chain)
    (hgood : ∀ t ∈ chain, goodName (RIndex.title t)) (s : List Char) :
    (_index_to_materialized_path rootId target).data ++ s =
      joinSlashCs ((chain.map RIndex.title).map String.data ++ [s]) := by
  cases chain with
  | nil =>
    rw [imp_eq_nil hparts]
    rfl
  | cons t rest =>
    have hlsne : ((t :: rest).map RIndex.title).map String.data ≠ [] := by simp
    have hlsgood : ∀ l ∈ ((t :: rest).map RIndex.title).map String.data, l ≠ [] := by
      intro l hl
      obtain ⟨x, hx, rfl⟩ := List.mem_map.1 hl
      obtain ⟨u, hu, rfl⟩ := List.mem_map.1 hx
      exact (hgood u hu).1
    have hJd : (joinSlash ((t :: rest).map RIndex.title)).data =
        joinSlashCs (((t :: rest).map RIndex.title).map String.data) := rfl
    have hjne : (joinSlash ((t :: rest).map RIndex.title)).data ≠ [] := by
      rw [hJd]
      exact joinSlashCs_ne_nil _ hlsne hlsgood
    rw [imp_eq_of_ne hparts hjne, String.data_append,
      joinSlashCs_append_single _ _ hlsne, hJd]
    simp [List.append_assoc]

theorem mem_data_good {chain : List RIndex}
    (hgood : ∀ t ∈ chain, goodName (RIndex.title t)) :
    ∀ l ∈ (chain.map RIndex.title).map String.data, l ≠ [] ∧ '/' ∉ l := by
  intro l hl
  obtain ⟨x, hx, rfl⟩ := List.mem_map.1 hl
  obtain ⟨u, hu, rfl⟩ := List.mem_map.1 hx
  exact ⟨(hgood u hu).1, (hgood u hu).2.1⟩

/-- Splitting the materialized path of an index strictly below the root
recovers the root segment and the chain's titles. -/
theorem index_mat_split {rootId : String} {target : RIndex} {chain : List RIndex}
    (hparts : _index_to_path_parts rootId target = chain)
    (hne : chain ≠ [])
    (hgood : ∀ t ∈ chain, goodName (RIndex.title t)) :
    splitParts (WEKOIndexMetadata_materialized_path rootId target) =
      "" :: chain.map RIndex.title := by
  have hlsne : (chain.map RIndex.title).map String.data ≠ [] := by
    intro h
    apply hne
    simpa using h
  have hlsgood := mem_data_good hgood
  have hJd : (joinSlash (chain.map RIndex.title)).data =
      joinSlashCs ((chain.map RIndex.title).map String.data) := rfl
  have hjne : (joinSlash (chain.map RIndex.title)).data ≠ [] := by
    rw [hJd]
    exact joinSlashCs_ne_nil _ hlsne (fun l hl => (hlsgood l hl).1)
  have hmat : WEKOIndexMetadata_materialized_path rootId target =
      "/" ++ (joinSlash (chain.map RIndex.title) ++ "/") := by
    unfold WEKOIndexMetadata_materialized_path
    rw [imp_eq_of_ne hparts hjne]
  have hdata : ("/" ++ (joinSlash (chain.map RIndex.title) ++ "/")).data =
      '/' :: joinSlashCs ((chain.map RIndex.title).map String.data) ++ ['/'] := by
    rw [String.data_append, String.data_append, hJd]
    rfl
  have h0 := splitParts_of_data_dir _ ((chain.map RIndex.title).map String.data)
    hdata hlsne hlsgood
  rw [map_mk_data] at h0
  rw [hmat]
  exact h0

/-- Splitting the materialized path of an item recovers the root segment,
the chain's titles and the item's primary title. -/
theorem item_mat_split {rootId : String} {target : RIndex} {chain : List RIndex}
    {raw : ItemJson} {name mat : String}
    (hparts : _index_to_path_parts rootId target = chain)
    (hgood : ∀ t ∈ chain, goodName (RIndex.title t))
    (hname : goodName name)
    (hpt : Item.primary_title raw = .ok name)
    (hmat : WEKOItemMetadata_materialized_path rootId raw target = .ok mat) :
    splitParts mat = "" :: (chain.map RIndex.title ++ [name]) := by
  have hmat2 : mat = "/" ++ _index_to_materialized_path rootId target ++ name ++ "/" := by
    unfold WEKOItemMetadata_materialized_path at hmat
    rw [hpt] at hmat
    have hmat3 : Except.ok ("/" ++ _index_to_materialized_path rootId target ++ name ++ "/") =
        (Except.ok mat : Except Err String) := hmat
    injection hmat3 with h
    exact h.symm
  have hls : (chain.map RIndex.title ++ [name]).map String.data =
      (chain.map RIndex.title).map String.data ++ [name.data] := by
    simp
  have hlsne : (chain.map RIndex.title ++ [name]).map String.data ≠ [] := by simp
  have hlsgood : ∀ l ∈ (chain.map RIndex.title ++ [name]).map String.data,
      l ≠ [] ∧ '/' ∉ l := by
    intro l hl
    obtain ⟨x, hx, rfl⟩ := List.mem_map.1 hl
    rcases List.mem_append.1 hx with h1 | h2
    · obtain ⟨u, hu, rfl⟩ := List.mem_map.1 h1
      exact ⟨(hgood u hu).1, (hgood u hu).2.1⟩
    · rw [List.mem_singleton.1 h2]
      exact ⟨hname.1, hname.2.1⟩
  have hdata : ("/" ++ _index_to_materialized_path rootId target ++ name ++ "/").data =
      '/' :: joinSlashCs ((chain.map RIndex.title ++ [name]).map String.data) ++ ['/'] := by
    simp only [String.data_append, hls]
    rw [← imp_data_append hparts hgood name.data]
    simp [List.append_assoc]
  have h0 := splitParts_of_data_dir mat ((chain.map RIndex.title ++ [name]).map String.data)
    (by rw [hmat2]; exact hdata) hlsne hlsgood
  rw [map_mk_data] at h0
  exact h0

/-- Splitting the materialized path of an item file recovers the root
segment, the chain's titles, the item's primary title and the filename. -/
theorem file_mat_split {rootId : String} {target : RIndex} {chain : List RIndex}
    {raw : ItemJson} {f : FileDesc} {name mat : String}
    (hparts : _index_to_path_parts rootId target = chain)
    (hgood : ∀ t ∈ chain, goodName (RIndex.title t))
    (hname : goodName name)
    (hfname : goodName f.filename)
    (hpt : Item.primary_title raw = .ok name)
    (hmat : WEKOFileMetadata_materialized_path rootId f raw target = .ok mat) :
    splitParts mat = "" :: (chain.map RIndex.title ++ [name, f.filename]) := by
  have hmat2 : mat =
      "/" ++ _index_to_materialized_path rootId target ++ name ++ "/" ++ f.filename := by
    unfold WEKOFileMetadata_materialized_path at hmat
    rw [hpt] at hmat
    have hmat3 : Except.ok
        ("/" ++ _index_to_materialized_path rootId target ++ name ++ "/" ++ f.filename) =
        (Except.ok mat : Except Err String) := hmat
    injection hmat3 with h
    exact h.symm
  have hls : (chain.map RIndex.title ++ [name, f.filename]).map String.data =
      ((chain.map RIndex.title).map String.data ++ [name.data]) ++ [f.filename.data] := by
    simp
  have hlsne : (chain.map RIndex.title ++ [name, f.filename]).map String.data ≠ [] := by simp
  have hlsgood : ∀ l ∈ (chain.map RIndex.title ++ [name, f.filename]).map String.data,
      l ≠ [] ∧ '/' ∉ l := by
    intro l hl
    obtain ⟨x, hx, rfl⟩ := List.mem_map.1 hl
    rcases List.mem_append.1 hx with h1 | h2
    · obtain ⟨u, hu, rfl⟩ := List.mem_map.1 h1
      exact ⟨(hgood u hu).1, (hgood u hu).2.1⟩
    · rcases List.mem_cons.1 h2 with h2 | h2
      · rw [h2]
        exact ⟨hname.1, hname.2.1⟩
      · rw [List.mem_singleton.1 h2]
        exact ⟨hfname.1, hfname.2.1⟩
  have happ1ne : (chain.map RIndex.title).map String.data ++ [name.data] ≠ [] := by simp
  have hdata : ("/" ++ _index_to_materialized_path rootId target ++ name ++ "/" ++
        f.filename).data =
      '/' :: joinSlashCs ((chain.map RIndex.title ++ [name, f.filename]).map String.data) := by
    simp only [String.data_append, hls]
    rw [joinSlashCs_append_single _ _ happ1ne]
    rw [← imp_data_append hparts hgood name.data]
    simp [List.append_assoc]
  have h0 := splitParts_of_data mat
    ((chain.map RIndex.title ++ [name, f.filename]).map String.data)
    (by rw [hmat2]; exact hdata) hlsne hlsgood
  rw [map_mk_data] at h0
  exact h0

/-- C2 counterexample: two sibling indices share the title `Dup`. The
metadata projection of the second one (backend id 102) materializes as
`/Dup/`, but re-resolving that path binds the final segment to the FIRST
title match, backend id 101: the round-trip triple is not the one the
projection was built from. -/
theorem c2_counterexample :
    WEKOIndexMetadata_materialized_path "100" idx102 = "/Dup/" ∧
    RIndex.identifier idx102 = "102" ∧
    (∃ st, validate_path repoDup "100" "/Dup/" = .ok st ∧
      st.ids.getLast? = some ⟨SegKind.index, "101", "Dup"⟩) ∧
    ¬("101" = "102") :=
  ⟨rfl, rfl, ⟨_, rfl, rfl⟩, by decide⟩

/-- C2 (corrected): the metadata/resolution round trip holds under the
hypotheses the counterexample shows necessary. For an Index strictly below
the configured root whose ancestor chain resolves first-match
(`chainOK`) through good display names, re-resolving
`WEKOIndexMetadata.materialized_path` succeeds and ends in the index's own
`(index, identifier, title)` triple; for an Item that is the first
primary-title match in its index's scoped search, with no sibling
child-index title collision, re-resolving
`WEKOItemMetadata.materialized_path` ends in `(item, identifier,
primary_title)`; for a File that is the first filename match among its
item's files, re-resolving `WEKOFileMetadata.materialized_path` ends in
`(item_file, filename, filename)`. -/
theorem c2_roundtrip_amended :
    (∀ (repo : Repo) (rootId : String) (c0 target : RIndex) (chain : List RIndex),
      getIndexById repo rootId = .ok c0 →
      _index_to_path_parts rootId target = chain →
      chain ≠ [] →
      chainOK c0 chain →
      (∀ t ∈ chain, goodName (RIndex.title t)) →
      chain.getLastD c0 = target →
      ∃ st, validate_path repo rootId (WEKOIndexMetadata_materialized_path rootId target) =
          .ok st ∧
        st.ids.getLast? = some ⟨SegKind.index, target.identifier, target.title⟩) ∧
    (∀ (repo : Repo) (rootId : String) (c0 target : RIndex) (chain : List RIndex)
        (raw : ItemJson) (items its : List ItemJson) (name mat : String),
      getIndexById repo rootId = .ok c0 →
      _index_to_path_parts rootId target = chain →
      chainOK c0 chain →
      (∀ t ∈ chain, goodName (RIndex.title t)) →
      chain.getLastD c0 = target →
      Item.primary_title raw = .ok name →
      goodName name →
      target.children.filter (fun x => RIndex.title x = name) = [] →
      getItems repo target = .ok items →
      filterByTitle items name = .ok (raw :: its) →
      WEKOItemMetadata_materialized_path rootId raw target = .ok mat →
      ∃ st, validate_path repo rootId mat = .ok st ∧
        st.ids.getLast? = some ⟨SegKind.item, Item.identifier raw, name⟩) ∧
    (∀ (repo : Repo) (rootId : String) (c0 target : RIndex) (chain : List RIndex)
        (raw : ItemJson) (items its : List ItemJson) (fs : List FileDesc) (f : FileDesc)
        (name mat : String),
      getIndexById repo rootId = .ok c0 →
      _index_to_path_parts rootId target = chain →
      chainOK c0 chain →
      (∀ t ∈ chain, goodName (RIndex.title t)) →
      chain.getLastD c0 = target →
      Item.primary_title raw = .ok name →
      goodName name →
      target.children.filter (fun x => RIndex.title x = name) = [] →
      getItems repo target = .ok items →
      filterByTitle items name = .ok (raw :: its) →
      Item.files raw = .ok fs →
      (fs.filter (fun g => g.filename = f.filename)).head? = some f →
      goodName f.filename →
      WEKOFileMetadata_materialized_path rootId f raw target = .ok mat →
      ∃ st, validate_path repo rootId mat = .ok st ∧
        st.ids.getLast? = some ⟨SegKind.item_file, f.filename, f.filename⟩) := by
  refine ⟨?_, ?_, ?_⟩
  · intro repo rootId c0 target chain hc0 hparts hne hok hgood hlastc
    obtain ⟨st1, ext, haux, hids, hitem1, hfile1, heff1, hlog1⟩ :=
      reachIndexState chain hc0 hgood hok hlastc
    refine ⟨st1, ?_, ?_⟩
    · unfold validate_path
      rw [index_mat_split hparts hne hgood]
      exact haux
    · rw [hids]
      have hgl : chain.getLast? = some target := getLast?_of_getLastD hne hlastc
      have hLgl : (chain.map
          (fun t => (⟨SegKind.index, t.identifier, t.title⟩ : SegId))).getLast? =
          some ⟨SegKind.index, target.identifier, target.title⟩ := by
        rw [List.getLast?_map, hgl]
        rfl
      rw [show ((⟨SegKind.root, "", ""⟩ : SegId) ::
          chain.map (fun t => ⟨SegKind.index, t.identifier, t.title⟩)) =
          [(⟨SegKind.root, "", ""⟩ : SegId)] ++
          chain.map (fun t => ⟨SegKind.index, t.identifier, t.title⟩) from rfl]
      rw [List.getLast?_append, hLgl]
      rfl
  · intro repo rootId c0 target chain raw items its name mat hc0 hparts hok hgood hlastc
      hpt hname hnochild hitems hfilt hmat
    obtain ⟨st1, ext, haux, hids, hitem1, hfile1, heff1, hlog1⟩ :=
      reachIndexState chain hc0 hgood hok hlastc
    have hsplit := item_mat_split hparts hgood hname hpt hmat
    have hroot2 : ¬(name = "" ∧ 0 + ("" :: chain.map RIndex.title).length = 0) :=
      fun hq => hname.1 (by rw [hq.1])
    have hstep := resolve_item_step heff1 hitem1 hfile1 hname.2.2 hroot2 hnochild hitems
      hfilt hpt
    have hfull : validate_path repo rootId mat =
        .ok ⟨st1.ids ++ [⟨SegKind.item, Item.identifier raw, name⟩], some target, some raw,
          st1.file, st1.log ++ ext ++ [RemoteCall.search (RIndex.identifier target)]⟩ := by
      unfold validate_path
      rw [hsplit]
      rw [show ("" :: (chain.map RIndex.title ++ [name])) =
        ("" :: chain.map RIndex.title) ++ [name] from rfl]
      rw [validatePathAux_append]
      simp only [haux]
      rw [validatePathAux_cons]
      simp only [hstep]
      rfl
    refine ⟨_, hfull, ?_⟩
    dsimp only
    rw [List.getLast?_concat]
  · intro repo rootId c0 target chain raw items its fs f name mat hc0 hparts hok hgood hlastc
      hpt hname hnochild hitems hfilt hfs hhead hfname hmat
    obtain ⟨st1, ext, haux, hids, hitem1, hfile1, heff1, hlog1⟩ :=
      reachIndexState chain hc0 hgood hok hlastc
    have hsplit := file_mat_split hparts hgood hname hfname hpt hmat
    have hroot2 : ¬(name = "" ∧ 0 + ("" :: chain.map RIndex.title).length = 0) :=
      fun hq => hname.1 (by rw [hq.1])
    have hstep := resolve_item_step heff1 hitem1 hfile1 hname.2.2 hroot2 hnochild hitems
      hfilt hpt
    have hroot3 : ¬(f.filename = "" ∧ 0 + ("" :: chain.map RIndex.title).length + 1 = 0) :=
      fun hq => hfname.1 (by rw [hq.1])
    have hstep2 := @resolve_file_step repo rootId
      (0 + ("" :: chain.map RIndex.title).length + 1) (FileDesc.filename f)
      ⟨st1.ids ++ [⟨SegKind.item, Item.identifier raw, name⟩], some target, some raw,
        st1.file, st1.log ++ ext ++ [RemoteCall.search (RIndex.identifier target)]⟩
      raw fs f rfl hfile1 hfname.2.2 hroot3 hfs hhead
    have hfull : validate_path repo rootId mat =
        .ok ⟨(st1.ids ++ [⟨SegKind.item, Item.identifier raw, name⟩]) ++
            [⟨SegKind.item_file, f.filename, f.filename⟩],
          some target, some raw, some f,
          st1.log ++ ext ++ [RemoteCall.search (RIndex.identifier target)]⟩ := by
      unfold validate_path
      rw [hsplit]
      rw [show ("" :: (chain.map RIndex.title ++ [name, f.filename])) =
        ("" :: chain.map RIndex.title) ++ [name, f.filename] from rfl]
      rw [validatePathAux_append]
      simp only [haux]
      rw [validatePathAux_cons]
      simp only [hstep]
      rw [validatePathAux_cons]
      simp only [hstep2]
      rfl
    refine ⟨_, hfull, ?_⟩
    dsimp only
    rw [List.getLast?_concat]

/-- Witness for C2 in scenario A: the sub-index 101 below root 100, the
item 1000 directly under the root, and its file `file.txt`. -/
theorem c2_witness :
    (∃ st, validate_path repoA "100" (WEKOIndexMetadata_materialized_path "100" rA101) =
        .ok st ∧
      st.ids.getLast? = some ⟨SegKind.index, "101", "Sub Index"⟩) ∧
    (∃ st, validate_path repoA "100" "/Sample Item/" = .ok st ∧
      st.ids.getLast? = some ⟨SegKind.item, "1000", "Sample Item"⟩) ∧
    (∃ st, validate_path repoA "100" "/Sample Item/file.txt" = .ok st ∧
      st.ids.getLast? = some ⟨SegKind.item_file, "file.txt", "file.txt"⟩) := by
  refine ⟨?_, ?_, ?_⟩
  · exact c2_roundtrip_amended.1 repoA "100" rA100 rA101 [rA101] rfl rfl (by simp)
      ⟨rfl, trivial⟩
      (by
        intro t ht
        rw [List.mem_singleton.1 ht]
        exact ⟨by decide, by decide, by decide⟩)
      rfl
  · exact c2_roundtrip_amended.2.1 repoA "100" rA100 rA100 [] item1000 [item1000] []
      "Sample Item" "/Sample Item/" rfl rfl trivial
      (fun t ht => absurd ht (List.not_mem_nil t)) rfl rfl
      ⟨by decide, by decide, by decide⟩ rfl rfl rfl rfl
  · exact c2_roundtrip_amended.2.2 repoA "100" rA100 rA100 [] item1000 [item1000] []
      [fdFile] fdFile "Sample Item" "/Sample Item/file.txt" rfl rfl trivial
      (fun t ht => absurd ht (List.not_mem_nil t)) rfl rfl
      ⟨by decide, by decide, by decide⟩ rfl rfl rfl rfl rfl
      ⟨by decide, by decide, by decide⟩ rfl

end WEKO
